import Mathlib

/-!
# A verification of the `speck` declarative binary-structure interpreter

This file is a shallow embedding, in Lean 4, of the TypeScript sources of the
`speck` repository (a declarative binary structure parser/generator), together
with theorems settling the frozen claims about it.

Modelling conventions, used throughout:

* `Uint8Array` values are `List Nat` whose elements are kept `< 256` by
  construction (`new Uint8Array(numberArray)` is translated as `·.map (· % 256)`,
  which is exactly JavaScript's `ToUint8` on integers).
* JavaScript exceptions are `Except String`; the error strings follow the
  sources (template-literal interpolations are reproduced only approximately,
  which no theorem depends on).
* JavaScript's 32-bit signed wrap-around in `<<` / `|` is made explicit through
  `toInt32`.
* Indexing out of range (`data[i]` being `undefined`, so that
  `(undefined >> k) & 1` evaluates to `0`) is translated as `List.getD _ _ 0`.
* The repository contains two generations of the parser: the current
  `src/parser.ts` (namespace `Parser` below) and a legacy copy with an
  MSB-first bit reader (`src/unnamed/part_000`, namespace `Legacy` below).
-/

namespace Speck

/-- Structure-level endianness (`types.ts`): `"little" | "big"`. -/
inductive Endianness
  | little
  | big
  deriving DecidableEq, Repr

deriving instance DecidableEq for Except

/-- Hex rendering of one byte, as in `b.toString(16).padStart(2, "0")`
(lowercase, two digits for bytes). -/
def hexByte (b : Nat) : String :=
  let s := (Nat.toDigits 16 b).asString
  if s.length < 2 then "0" ++ s else s

/-- `b.toString(2)`:  binary rendering of a number, no padding (`"0"` for 0). -/
def binString (b : Nat) : String :=
  (Nat.toDigits 2 b).asString

/--
Parsed scalar values (`ParsedValue` in `types.ts`).  The JavaScript type is
`string | number | boolean` (plus `number[]` from the `array` parser).  Values
whose JavaScript representation this development does not need numerically are
kept as tagged raw data, so that every decoder stays a total computable
function of the input bytes:

* `.float raw little` stands for the IEEE-754 number read from `raw` with the
  given byte order (the numeric value itself is never needed by any claim);
* `.utf8 raw` stands for the string `TextDecoder("utf-8").decode(raw)`;
* `.endpointVal pfx idPart inst` stands for the endpoint string
  `` `${pfx}${id}${inst services…}` `` where `idPart = none` encodes the
  all-zero "local" id and `idPart = some l` the id bytes up to the first NUL.

Consequently JavaScript `===`-equalities that cross these tags (for instance a
decoded UTF-8 string versus a literal `.str`) are not identified by the model;
no claim in this development compares values across tags.
-/
inductive ParsedValue
  | bool (b : Bool)
  | num (n : Int)
  | str (s : String)
  | arr (l : List Nat)
  | float (raw : List Nat) (little : Bool)
  | utf8 (raw : List Nat)
  | endpointVal (pfx : String) (idPart : Option (List Nat)) (inst : Nat)
  deriving DecidableEq, Repr

/-- JavaScript strict equality `===` on parsed values, as used by the
`equals` condition and `Array.prototype.includes`.  Two distinct array
objects are never `===`-equal in JavaScript (reference equality), hence the
`.arr` case is constantly `false`. -/
def jsStrictEq : ParsedValue → ParsedValue → Bool
  | .bool a, .bool b => a == b
  | .num a, .num b => a == b
  | .str a, .str b => a == b
  | .utf8 a, .utf8 b => a == b
  | .float a la, .float b lb => a == b && la == lb
  | .endpointVal p a i, .endpointVal q b j => p == q && a == b && i == j
  | .arr _, .arr _ => false
  | _, _ => false

end Speck

namespace Speck.Parser

/-!
## The bit extractor of `src/parser.ts` (`class BitReader`)

```ts
readBits(count: number): Uint8Array {
    if (count < 0) throw new Error("Cannot read negative bits");
    const bytesNeeded = Math.ceil(count / 8);
    const result = new Uint8Array(bytesNeeded);
    for (let i = 0; i < count; i++) {
        const byteIndex = Math.floor(this.bitOffset / 8);
        const bitIndex = this.bitOffset % 8;
        const bit = (this.data[byteIndex] >> bitIndex) & 1;
        const resByteIndex = Math.floor(i / 8);
        const resBitIndex = i % 8;
        result[resByteIndex] |= bit << resBitIndex;
        this.bitOffset++;
    }
    return result;
}
```

The reader consumes the *least* significant bit of each byte first
(`>> bitIndex` with `bitIndex` counted from 0), and packs the bits of the
result LSB-first as well (`bit << resBitIndex`).  Reading past the end of
`data` yields `undefined`, and `(undefined >> k) & 1` is `0` in JavaScript.
-/

/-- One source statement: `(this.data[byteIndex] >> bitIndex) & 1` at absolute
bit offset `pos` (the source keeps `byteIndex = pos / 8`, `bitIndex = pos % 8`
separately). An out-of-range index reads `undefined`, i.e. `0`. -/
def jsBit (data : List Nat) (pos : Nat) : Nat :=
  ((data.getD (pos / 8) 0) >>> (pos % 8)) &&& 1

/-- Result byte `j` assembled by the loop: the bits `i = 8*j, …` of the request
are or-ed in at positions `i % 8`. `cnt` is how many bits land in this byte. -/
def resultByte (data : List Nat) (off : Nat) (start cnt : Nat) : Nat :=
  (List.range cnt).foldl (fun acc k => acc ||| (jsBit data (off + start + k) <<< k)) 0

/-- `BitReader.readBits` of `src/parser.ts`, acting on an explicit state
`(data, bitOffset)`; returns the produced bytes and the advanced bit offset.
`count` is an `Int` because the source guards `count < 0` explicitly. -/
def readBits (data : List Nat) (off : Nat) (count : Int) :
    Except String (List Nat × Nat) :=
  if count < 0 then .error "Cannot read negative bits"
  else
    let n := count.toNat
    let bytesNeeded := (n + 7) / 8
    .ok ((List.range bytesNeeded).map
      (fun j => resultByte data off (8 * j) (min 8 (n - 8 * j))), off + n)

end Speck.Parser

namespace Speck.Legacy

/-!
## The bit extractor of the legacy parser (`src/unnamed/part_000`)

```ts
readBits(count: number): Uint8Array {
    if (count <= 0) throw new Error("Bit count must be positive");
    const result = new Uint8Array(Math.ceil(count / 8));
    let bitsWritten = 0;
    while (bitsWritten < count) {
        const byteIndex = Math.floor(this.bitOffset / 8);
        const bitIndex = this.bitOffset % 8;
        if (byteIndex >= this.data.length) throw new Error("Reached end of buffer");
        const bitsAvailable = 8 - bitIndex;
        const bitsToRead = Math.min(count - bitsWritten, bitsAvailable);
        const mask = (1 << bitsToRead) - 1;
        const bits = (this.data[byteIndex] >> (bitsAvailable - bitsToRead)) & mask;
        const resultByteIndex = Math.floor(bitsWritten / 8);
        const resultBitIndex = bitsWritten % 8;
        result[resultByteIndex] |= bits << (8 - resultBitIndex - bitsToRead);
        bitsWritten += bitsToRead;
        this.bitOffset += bitsToRead;
    }
    // Right-align all bits in the last byte
    const remainingBits = count % 8;
    if (remainingBits !== 0) result[result.length - 1] >>= 8 - remainingBits;
    return result;
}
```

This one is MSB-first and right-aligns the final partial byte.  The `while`
loop is translated with a fuel argument: every iteration writes at least one
bit (`bitsToRead ≥ 1` because `bitIndex ≤ 7`), so `count` iterations always
suffice; the fuel-exhausted base case coincides with the loop-exit result and
is unreachable when the loop is started with fuel `count`.
-/

/-- Loop body of the legacy `readBits`; state: bit offset `off` into `data`,
`bw` bits written so far into `result`. -/
def readLoop (data : List Nat) (count : Nat) :
    Nat → Nat → Nat → List Nat → Except String (List Nat × Nat)
  | 0, off, _, result => .ok (result, off)
  | fuel + 1, off, bw, result =>
    if bw ≥ count then .ok (result, off)
    else
      let byteIndex := off / 8
      if byteIndex ≥ data.length then .error "Reached end of buffer"
      else
        let bitIndex := off % 8
        let bitsAvailable := 8 - bitIndex
        let bitsToRead := min (count - bw) bitsAvailable
        let mask := (1 <<< bitsToRead) - 1
        let bits := ((data.getD byteIndex 0) >>> (bitsAvailable - bitsToRead)) &&& mask
        let resultByteIndex := bw / 8
        let resultBitIndex := bw % 8
        let result' := result.set resultByteIndex
          ((result.getD resultByteIndex 0) ||| (bits <<< (8 - resultBitIndex - bitsToRead)))
        readLoop data count fuel (off + bitsToRead) (bw + bitsToRead) result'

/-- `BitReader.readBits` of `src/unnamed/part_000`, on explicit state. -/
def readBits (data : List Nat) (off : Nat) (count : Int) :
    Except String (List Nat × Nat) :=
  if count ≤ 0 then .error "Bit count must be positive"
  else
    let n := count.toNat
    match readLoop data n n off 0 (List.replicate ((n + 7) / 8) 0) with
    | .error e => .error e
    | .ok (result, off') =>
      let remainingBits := n % 8
      let result' :=
        if remainingBits ≠ 0 then
          result.set (result.length - 1)
            ((result.getD (result.length - 1) 0) >>> (8 - remainingBits))
        else result
      .ok (result', off')

end Speck.Legacy

namespace Speck

/-! ## JavaScript number helpers -/

/-- `ToInt32`: the 32-bit signed wrap-around JavaScript applies inside `<<`,
`>>` and `|`. -/
def toInt32 (n : Int) : Int :=
  (n + 2147483648).emod 4294967296 - 2147483648

/-- `JSON.parseInt(s, radix)`-style digit value of one character. -/
def digitValue (c : Char) : Option Nat :=
  if '0' ≤ c ∧ c ≤ '9' then some (c.toNat - 48)
  else if 'a' ≤ c ∧ c ≤ 'z' then some (c.toNat - 97 + 10)
  else if 'A' ≤ c ∧ c ≤ 'Z' then some (c.toNat - 65 + 10)
  else none

/-- Longest prefix of digits valid in the given radix (as digit values). -/
def takeDigits (radix : Nat) : List Char → List Nat
  | [] => []
  | c :: rest =>
    match digitValue c with
    | some v => if v < radix then v :: takeDigits radix rest else []
    | none => []

/-- JavaScript `parseInt(s, radix)`: skip leading whitespace, optional sign,
for radix 16 an optional `0x`/`0X` prefix, then the longest valid digit
prefix; `none` is `NaN` (no digits at all). -/
def parseIntJS (s : String) (radix : Nat) : Option Int :=
  let cs := s.toList.dropWhile (fun c => c = ' ' ∨ c = '\t' ∨ c = '\n' ∨ c = '\r')
  let signAndRest : Int × List Char :=
    match cs with
    | '-' :: rest => (-1, rest)
    | '+' :: rest => (1, rest)
    | _ => (1, cs)
  let cs₂ :=
    if radix = 16 then
      match signAndRest.2 with
      | '0' :: 'x' :: rest => rest
      | '0' :: 'X' :: rest => rest
      | _ => signAndRest.2
    else signAndRest.2
  let ds := takeDigits radix cs₂
  if ds.isEmpty then none
  else some (signAndRest.1 * (ds.foldl (fun acc d => acc * radix + d) 0 : Nat))

/-- The enum-key interpretation of `src/parser.ts`:
`key.startsWith("0x") ? parseInt(key.slice(2), 16) : key.startsWith("0b") ?
parseInt(key.slice(2), 2) : parseInt(key, 10)`; `none` is `NaN`. -/
def enumKeyInt (key : String) : Option Int :=
  match key.toList with
  | '0' :: 'x' :: rest => parseIntJS (String.mk rest) 16
  | '0' :: 'b' :: rest => parseIntJS (String.mk rest) 2
  | _ => parseIntJS key 10

/-- `DataView.getUintN(0, littleEndian)` over the whole byte list. -/
def dataViewUint (bytes : List Nat) (little : Bool) : Nat :=
  (if little then bytes.reverse else bytes).foldl (fun acc b => acc * 256 + b) 0

/-- `DataView.getIntN(0, littleEndian)`: the unsigned read, sign-corrected at
`bits` bits. -/
def dataViewInt (bytes : List Nat) (little : Bool) (bits : Nat) : Int :=
  let u := dataViewUint bytes little
  (u : Int) - (if 2 ^ (bits - 1) ≤ u then 2 ^ bits else 0)

/-- `uint8ArrayToNumberLE` of `src/parser.ts`:

```ts
function uint8ArrayToNumberLE(arr: Uint8Array): number {
    if (arr.length > 6) throw new Error("Too many bytes for a safe JS number");
    let num = 0;
    for (let i = arr.length - 1; i >= 0; i--) num = (num << 8) | arr[i];
    return num;
}
```

`<<` operates on 32-bit signed integers, hence the `toInt32`; `| arr[i]`
adds the byte into the (zero) low 8 bits of the shifted value, which for the
byte-valued `arr[i] < 256` this function receives is exactly `+ arr[i]`. -/
def uint8ArrayToNumberLE (arr : List Nat) : Except String Int :=
  if arr.length > 6 then .error "Too many bytes for a safe JS number"
  else .ok (arr.foldr (fun b num => toInt32 (num * 256) + b) 0)

/-! ## Schema and registry -/

/-- `ValueParser` of `types.ts`; the enum mapping is the insertion-ordered
`Object.entries` view of the mapping object. -/
inductive ValueParser
  | boolean
  | uint
  | int
  | float
  | string
  | enum (mapping : List (String × ParsedValue))
  | endpoint
  | pointer
  | custom (name : String)
  | hex
  | array
  deriving DecidableEq, Repr

/-- The process-wide `CUSTOM_PARSERS: Map<string, (bytes) => ParsedValue>`,
modelled as an insertion-ordered association list with unique keys. -/
abbrev Registry := List (String × (List Nat → ParsedValue))

/-- `CUSTOM_PARSERS.get(name)`. -/
def Registry.get (m : Registry) (name : String) : Option (List Nat → ParsedValue) :=
  (List.find? (fun e => e.1 == name) m).map (·.2)

/-- `registerCustomParser(name, parser)`, i.e. `CUSTOM_PARSERS.set`:
replaces an existing entry, else appends. -/
def registerCustomParser (name : String) (f : List Nat → ParsedValue)
    (m : Registry) : Registry :=
  if List.any m (fun e => e.1 == name) then
    List.map (fun e => if e.1 == name then (name, f) else e) m
  else m ++ [(name, f)]

/-- `unregisterCustomParser(name)`, i.e. `CUSTOM_PARSERS.delete`. -/
def unregisterCustomParser (name : String) (m : Registry) : Registry :=
  List.filter (fun e => e.1 != name) m

end Speck

namespace Speck.Parser

open Speck

/-! ## The value codec of `src/parser.ts` (`parseFieldValue`) -/

/-- The enum branch of `parseFieldValue`.  For each mapping entry in order the
source builds a *fresh* `DataView` of `bytes.length` bytes and then

* 1 byte: writes `bytes[0]` and compares the read-back against the key —
  a genuine comparison of the field byte with the key;
* 2/4 bytes: writes `keyInteger` itself and compares the read-back against
  `keyInteger` — the field bytes are never consulted, so the entry matches
  iff `0 ≤ keyInteger < 2^16` (resp. `2^32`); a `NaN` key stores `0`, and
  `0 === NaN` is false;
* other lengths: throws. -/
def enumLookup (bytes : List Nat) (le : Bool) :
    List (String × ParsedValue) → Except String ParsedValue
  | [] =>
    .error ("Value 0x" ++ String.intercalate " " (bytes.map hexByte)
      ++ " not found in enum mapping")
  | (key, value) :: rest =>
    let keyInteger := enumKeyInt key
    if bytes.length = 1 then
      if keyInteger = some ((bytes.getD 0 0 : Nat) : Int) then .ok value
      else enumLookup bytes le rest
    else if bytes.length = 2 then
      match keyInteger with
      | some k => if 0 ≤ k ∧ k < 65536 then .ok value else enumLookup bytes le rest
      | none => enumLookup bytes le rest
    else if bytes.length = 4 then
      match keyInteger with
      | some k => if 0 ≤ k ∧ k < 4294967296 then .ok value else enumLookup bytes le rest
      | none => enumLookup bytes le rest
    else .error "Unsupported byte length for mapping"

/-- `parseFieldValue` of `src/parser.ts`.  `reg` is the lookup view of the
`CUSTOM_PARSERS` map (the only part of it the function uses). -/
def parseFieldValue (bytes : List Nat) (parser : ValueParser)
    (endianness : Endianness) (reg : String → Option (List Nat → ParsedValue)) :
    Except String ParsedValue :=
  let le := endianness = Endianness.little
  match parser with
  | .boolean =>
    if bytes.length ≠ 1 then .error "Invalid byte length for boolean"
    else .ok (.bool (bytes.getD 0 0 ≠ 0))
  | .uint => (uint8ArrayToNumberLE bytes).map .num
  | .int =>
    if bytes.length = 1 then .ok (.num (bytes.getD 0 0))
    else if bytes.length = 2 then .ok (.num (dataViewInt bytes le 16))
    else if bytes.length = 4 then .ok (.num (dataViewInt bytes le 32))
    else .error "Unsupported byte length for signed integer"
  | .float =>
    if bytes.length = 4 ∨ bytes.length = 8 then .ok (.float bytes le)
    else .error "Unsupported byte length for float"
  | .string => .ok (.utf8 bytes)
  | .enum mapping => enumLookup bytes le mapping
  | .endpoint =>
    if bytes.length ≠ 21 then .error "Invalid byte length for endpoint"
    else
      let t := bytes.getD 0 0
      let pfx := if t = 0 then "@" else if t = 1 then "@+" else "@@"
      let idBytes := (bytes.drop 1).take 18
      let inst := dataViewUint ((bytes.drop 19).take 2) le
      let idPart := if idBytes.all (· = 0) then none
        else some (idBytes.takeWhile (· ≠ 0))
      .ok (.endpointVal pfx idPart inst)
  | .pointer =>
    if bytes.length ≠ 26 then .error "Invalid byte length for pointer"
    else .ok (.str ("$" ++ String.join (bytes.map hexByte)))
  | .custom name =>
    match reg name with
    | none => .error ("Custom parser " ++ name ++ " not found")
    | some f => .ok (f bytes)
  | .hex => .ok (.str (String.join (bytes.map hexByte)))
  | .array => .ok (.arr bytes)

end Speck.Parser

namespace Speck

/-! ## Schema data model (`types.ts`) -/

/-- `repeat`: a literal count (`number`) or an id-reference (`string`). -/
inductive RepeatSpec
  | lit (n : Int)
  | ref (id : String)
  deriving DecidableEq, Repr

/-- `FieldCondition` of `types.ts`: recursive boolean conditions over
backward id-references. -/
inductive FieldCondition
  | equals (id : String) (v : ParsedValue)
  | lessThan (id : String) (n : Int)
  | greaterThan (id : String) (n : Int)
  | includes (id : String) (l : List ParsedValue)
  | not (c : FieldCondition)
  | and (cs : List FieldCondition)
  | or (cs : List FieldCondition)

/-- The expected value of an `assert` condition: `ParsedValue | ParsedValue[]`. -/
inductive AssertValue
  | single (v : ParsedValue)
  | list (vs : List ParsedValue)
  deriving DecidableEq, Repr

/-- `AssertCondition` of `types.ts`: only the `is` shape exists. -/
inductive AssertCondition
  | is (v : AssertValue)
  deriving DecidableEq, Repr

/-- `BitMask` / `BitMaskDefinition` of `types.ts`.  `length?` is an `Int`
because the parser guards negative counts at run time; `mask.length ?? 1`
keeps an explicit `0`. -/
structure BitMaskDefinition where
  id? : Option String
  name : String
  length? : Option Int
  parser? : Option ValueParser
  deriving DecidableEq, Repr

mutual

/-- `FieldDefinition` of `types.ts`: common attributes plus the
shape-distinguishing payload (`subFields` / `bitMasks` / plain parser).
The `usage: "omit"` flag only matters to the downstream packer and is not
modelled. -/
inductive FieldDefinition
  | mk (id? : Option String) (name : String) (byteSize : Nat)
       (repeat? : Option RepeatSpec) (if? : Option FieldCondition)
       (assert? : Option AssertCondition) (body : FieldBody)

/-- The three field shapes the resolver probes for:
`"subFields" in fieldDef`, `"bitMasks" in fieldDef`, else a direct field. -/
inductive FieldBody
  | nested (subFields : List FieldDefinition) (parser? : Option ValueParser)
  | bitmask (bitMasks : List BitMaskDefinition)
  | leaf (parser? : Option ValueParser)

end

namespace FieldDefinition

def id? : FieldDefinition → Option String
  | .mk i _ _ _ _ _ _ => i

def name : FieldDefinition → String
  | .mk _ n _ _ _ _ _ => n

def byteSize : FieldDefinition → Nat
  | .mk _ _ b _ _ _ _ => b

def repeat? : FieldDefinition → Option RepeatSpec
  | .mk _ _ _ r _ _ _ => r

def if? : FieldDefinition → Option FieldCondition
  | .mk _ _ _ _ c _ _ => c

def assert? : FieldDefinition → Option AssertCondition
  | .mk _ _ _ _ _ a _ => a

def body : FieldDefinition → FieldBody
  | .mk _ _ _ _ _ _ b => b

end FieldDefinition

/-- `SectionDefinition` of `types.ts`. -/
structure SectionDefinition where
  name : String
  fields : List FieldDefinition

/-- `StructureDefinition` of `types.ts`; `endian` defaults to `"little"`. -/
structure StructureDefinition where
  name : String
  endian? : Option Endianness
  sections : List SectionDefinition

/-! ## Parsed output (`ParsedField` / `ParsedSection` / `ParsedStructure`) -/

/-- `ParsedField` of `types.ts`, with one constructor per object-literal
shape the parser builds:

* `.direct`: a plain field — the `parsedValue` property is present, possibly
  `undefined` (`value? = none`);
* `.withSub`: a nested field — `parsedValue` (possibly `undefined`) plus one
  list of parsed fields per child definition;
* `.bitmasked`: a bit-masked field — no `parsedValue` property at all, and a
  single-element `subFields` list holding the parsed bit masks. -/
inductive ParsedField
  | direct (id? : Option String) (name : String) (bytes : List Nat)
      (value? : Option ParsedValue)
  | withSub (id? : Option String) (name : String) (bytes : List Nat)
      (value? : Option ParsedValue) (subFields : List (List ParsedField))
  | bitmasked (id? : Option String) (name : String) (bytes : List Nat)
      (subFields : List (List ParsedField))

namespace ParsedField

def id? : ParsedField → Option String
  | .direct i _ _ _ => i
  | .withSub i _ _ _ _ => i
  | .bitmasked i _ _ _ => i

def name : ParsedField → String
  | .direct _ n _ _ => n
  | .withSub _ n _ _ _ => n
  | .bitmasked _ n _ _ => n

def bytes : ParsedField → List Nat
  | .direct _ _ b _ => b
  | .withSub _ _ b _ _ => b
  | .bitmasked _ _ b _ => b

/-- The field's `parsedValue`, collapsing "property absent" (`.bitmasked`)
and "property present but `undefined`" to `none`; `hasValueProp` keeps the
distinction where the source probes `"parsedValue" in field`. -/
def value? : ParsedField → Option ParsedValue
  | .direct _ _ _ v => v
  | .withSub _ _ _ v _ => v
  | .bitmasked _ _ _ _ => none

/-- `"parsedValue" in field`: true for the two shapes that set the property
(even to `undefined`). -/
def hasValueProp : ParsedField → Bool
  | .bitmasked _ _ _ _ => false
  | _ => true

/-- `field.subFields`, `[]` when the property is absent (`.direct`). -/
def subGroups : ParsedField → List (List ParsedField)
  | .direct _ _ _ _ => []
  | .withSub _ _ _ _ s => s
  | .bitmasked _ _ _ s => s

end ParsedField

/-- `ParsedSection`. -/
structure ParsedSection where
  name : String
  fields : List ParsedField

/-- `ParsedStructure`. -/
abbrev ParsedStructure := List ParsedSection

/-- `...fieldDef.id && { id: fieldDef.id }`: the `id` property is attached
only when the schema id is truthy (present and non-empty). -/
def idField : Option String → Option String
  | some s => if s = "" then none else some s
  | none => none

/-! ## Byte sources -/

/-- The nested default-byte tree accepted by the generator
(`CustomBytes = {[key]: CustomBytes | Record<string, number[]>}`): inner
objects with number-array leaves, modelled with insertion-ordered unique
keys. -/
inductive CustomBytes
  | node (entries : List (String × CustomBytes))
  | leafBytes (bytes : List Nat)

/-- Key lookup in a defaults object. -/
def CustomBytes.lookup (entries : List (String × CustomBytes)) (key : String) :
    Option CustomBytes :=
  (List.find? (fun e => e.1 == key) entries).map (·.2)

/-- The path-walking `for` loop of `Uint8ArrayGeneratorReader.readBytes`:
`break` on a missing entry, throw when an intermediate entry is an array,
else step into the object. -/
def walkPath : Option CustomBytes → List String → String →
    Except String (Option CustomBytes)
  | cb, [], _ => .ok cb
  | none, _ :: _, _ => .ok none
  | some (.leafBytes _), _ :: _, pathStr =>
    .error ("Invalid path to custom byte data: " ++ pathStr)
  | some (.node entries), part :: rest, pathStr =>
    walkPath (CustomBytes.lookup entries part) rest pathStr

/-- `Uint8ArrayGeneratorReader.readBytes(count, fieldPath)` of the generator
(`src/unnamed/part_006`): n zero bytes when nothing is found at the path; an
error when the entry is an object or shorter than `count`; otherwise the
*entire* entry, converted through `new Uint8Array(...)`. -/
def genReadBytes (count : Nat) (fieldPath : List String)
    (defaults : Option CustomBytes) : Except String (List Nat) :=
  let pathStr := String.intercalate "." fieldPath
  match walkPath defaults fieldPath pathStr with
  | .error e => .error e
  | .ok none => .ok (List.replicate count 0)
  | .ok (some (.node _)) =>
    .error ("Invalid path to custom byte data: " ++ pathStr)
  | .ok (some (.leafBytes l)) =>
    if l.length < count then
      .error ("Not enough custom byte data for field " ++ pathStr)
    else .ok (l.map (· % 256))

/-- The two byte sources of the repository: `DefaultUint8ArrayReader` of
`src/parser.ts` (real data plus a cursor) and `Uint8ArrayGeneratorReader` of
the generator (path-addressed defaults, no cursor). -/
inductive Reader
  | default (data : List Nat) (offset : Nat)
  | generator (defaults : Option CustomBytes)

/-- `readBytes`: the real reader slices `[offset, offset+count)` and
advances; the generator reader delegates to the defaults lookup and keeps
its (non-existent) cursor unchanged. -/
def Reader.readBytes : Reader → Nat → List String →
    Except String (List Nat × Reader)
  | .default data off, count, _ =>
    if off + count > data.length then .error "Attempt to read beyond end of data"
    else .ok ((data.drop off).take count, .default data (off + count))
  | .generator d, count, path =>
    (genReadBytes count path d).map (fun bs => (bs, .generator d))

/-- `peekBytes`: like `readBytes` but without advancing. -/
def Reader.peekBytes : Reader → Nat → List String → Except String (List Nat)
  | .default data off, count, _ =>
    if off + count > data.length then .error "Attempt to read beyond end of data"
    else .ok ((data.drop off).take count)
  | .generator d, count, path => genReadBytes count path d

end Speck

namespace Speck.Parser

open Speck

/-! ## Backward id lookup (`findFieldById`) -/

mutual

/-- `findFieldById(id, fields)` of `src/parser.ts`: first field whose `id`
property strictly equals `id`; a field's `subFields` groups are searched
depth-first before the remaining siblings. -/
def findFieldById (id : String) : List ParsedField → Option ParsedField
  | [] => none
  | f :: rest =>
    if f.id? = some id then some f
    else
      match findInGroups id f.subGroups with
      | some g => some g
      | none => findFieldById id rest
termination_by fields => sizeOf fields
decreasing_by
  all_goals first
    | (simp; omega)
    | (cases f <;> simp [ParsedField.subGroups] <;> omega)

/-- The inner `for (const subFields of field.subFields)` loop. -/
def findInGroups (id : String) : List (List ParsedField) → Option ParsedField
  | [] => none
  | g :: gs =>
    match findFieldById id g with
    | some f => some f
    | none => findInGroups id gs
termination_by groups => sizeOf groups
decreasing_by
  all_goals simp <;> omega

end

/-! ## Conditions (`checkFieldCondition`) -/

mutual

/-- `checkFieldCondition(parsedSection, condition)` of `src/parser.ts`.
Every comparison shape resolves its id against the fields parsed so far and
evaluates to `false` when the reference is missing; `not`/`and`/`or` combine
recursively (the source's `throw` for an unknown shape is unreachable over
this closed datatype). -/
def checkFieldCondition (fields : List ParsedField) : FieldCondition → Bool
  | .equals id v =>
    match findFieldById id fields with
    | none => false
    | some f =>
      match f.value? with
      | some v' => jsStrictEq v' v
      | none => false
  | .lessThan id n =>
    match findFieldById id fields with
    | none => false
    | some f =>
      match f.value? with
      | some (.num x) => decide (x < n)
      | _ => false
  | .greaterThan id n =>
    match findFieldById id fields with
    | none => false
    | some f =>
      match f.value? with
      | some (.num x) => decide (x > n)
      | _ => false
  | .includes id l =>
    match findFieldById id fields with
    | none => false
    | some f =>
      match f.value? with
      | some v => List.any l (fun w => jsStrictEq w v)
      | none => false
  | .not c => ! checkFieldCondition fields c
  | .and cs => checkAll fields cs
  | .or cs => checkAny fields cs

/-- `condition.and.every(...)`. -/
def checkAll (fields : List ParsedField) : List FieldCondition → Bool
  | [] => true
  | c :: rest => checkFieldCondition fields c && checkAll fields rest

/-- `condition.or.some(...)`. -/
def checkAny (fields : List ParsedField) : List FieldCondition → Bool
  | [] => false
  | c :: rest => checkFieldCondition fields c || checkAny fields rest

end

/-! ## Assertions (`assertCondition`) -/

/-- The expected value at repeat-index `i`:
`Array.isArray(condition.is) ? condition.is[index] : condition.is`
(out-of-range indexing yields `undefined`). -/
def assertExpectedAt : AssertValue → Nat → Option ParsedValue
  | .single v, _ => some v
  | .list vs, i => vs.get? i

/-- `JSON.stringify(a) === JSON.stringify(b)` with both sides possibly
`undefined` (`JSON.stringify(undefined)` is the value `undefined`, equal only
to itself).  Equality of the stringified forms is modelled as structural
equality of the values, which every use in this development exercises only
symmetrically. -/
def jsonEqOpt : Option ParsedValue → Option ParsedValue → Bool
  | none, none => true
  | some a, some b => a == b
  | _, _ => false

/-- `assertCondition(parsedFields, condition)` of `src/parser.ts`: an array
target (repeated field) checks every instance against the expected value at
its index; a single target compares directly.  A field without the
`parsedValue` property (a bit-masked field) never satisfies an assertion.
A single target paired with an array expectation is modelled as `false`
(the source compares the stringified array; nothing here exercises it). -/
def assertCondition : Sum (List ParsedField) ParsedField → AssertCondition → Bool
  | .inl fields, .is av =>
    List.all fields.enum (fun p =>
      p.2.hasValueProp && jsonEqOpt p.2.value? (assertExpectedAt av p.1))
  | .inr f, .is av =>
    f.hasValueProp &&
      (match av with
       | .single v => jsonEqOpt f.value? (some v)
       | .list _ => false)

/-! ## Repeat resolution -/

/-- JavaScript truthiness of `fieldDef.repeat`: absent, the literal `0` and
the empty-string reference are all falsy. -/
def repeatTruthy : Option RepeatSpec → Bool
  | none => false
  | some (.lit n) => n ≠ 0
  | some (.ref s) => s ≠ ""

/-- The repeat-count resolution of `parseField`: behind the truthiness gate,
a numeric literal is used directly and a reference is looked up among the
fields parsed so far, requiring a numeric `parsedValue`. -/
def resolveRepeatCount (r? : Option RepeatSpec) (sectionFields : List ParsedField)
    (path : List String) : Except String Int :=
  if repeatTruthy r? then
    match r? with
    | some (.lit n) => .ok n
    | some (.ref rid) =>
      match findFieldById rid sectionFields with
      | none =>
        .error ("Repeat field " ++ rid ++ " not found for field "
          ++ String.intercalate "." path)
      | some f =>
        match f.value? with
        | some (.num k) => .ok k
        | _ =>
          .error ("Repeat field " ++ rid
            ++ " does not have a numeric parsed value")
    | none => .ok 1
  else .ok 1

/-! ## Bit masks (`parseBitMasks`) -/

/-- The `for (const mask of bitMasks)` loop of `parseBitMasks`, threading the
shared `BitReader` offset.  A mask without a parser renders the raw bytes as
`[...bitData].map(b => b.toString(2)).join("")`. -/
def parseBitMasksLoop (bytes : List Nat) (endianness : Endianness)
    (reg : String → Option (List Nat → ParsedValue)) :
    List BitMaskDefinition → Nat → Except String (List ParsedField)
  | [], _ => .ok []
  | mask :: rest, off => do
    let (bitData, off') ← readBits bytes off (mask.length?.getD 1)
    let parsedValue ←
      match mask.parser? with
      | some p => parseFieldValue bitData p endianness reg
      | none => pure (ParsedValue.str (String.join (bitData.map binString)))
    let restFields ← parseBitMasksLoop bytes endianness reg rest off'
    pure (ParsedField.direct (idField mask.id?) mask.name bitData (some parsedValue)
      :: restFields)

/-- `parseBitMasks(bytes, bitMasks, endianness)` of `src/parser.ts`: a fresh
`BitReader` over the field's bytes, one result field per mask. -/
def parseBitMasks (bytes : List Nat) (bitMasks : List BitMaskDefinition)
    (endianness : Endianness)
    (reg : String → Option (List Nat → ParsedValue)) :
    Except String (List ParsedField) :=
  parseBitMasksLoop bytes endianness reg bitMasks 0

end Speck.Parser

namespace Speck.Parser

open Speck

/-! ## The field resolver (`parseField`) and the structure resolver

`parseField` of `src/parser.ts` is translated as a mutual block:

* `parseOne` is one iteration of the `for (let i = 0; i < repeatCount; i++)`
  loop (the three field shapes);
* `parseLoop` is that loop;
* `parseChildren` is the `fieldDef.subFields.map(...)` over a shared,
  advancing reader (its `.filter(f => f !== null)` drops nothing, since
  `parseField` never returns `null`);
* `parseField` is the exported function: condition gate, repeat resolution,
  loop, assertion.

Within one `parseField` call the accumulated `parsedSection.fields` array is
only read, never extended (the section resolver pushes results after the
call returns), so it is passed as an immutable `sectionFields` snapshot. -/

mutual

/-- One repeat iteration of `parseField`. -/
def parseOne (fd : FieldDefinition) (r : Reader) (sectionFields : List ParsedField)
    (endianness : Endianness) (path : List String)
    (reg : String → Option (List Nat → ParsedValue)) :
    Except String (ParsedField × Reader) :=
  match fd with
  | .mk id? name byteSize _ _ _ (.nested subs parser?) => do
    let bytes ← r.peekBytes byteSize path
    let (groups, r') ← parseChildren subs r sectionFields endianness path reg
    let value? ←
      match parser? with
      | some p => (parseFieldValue bytes p endianness reg).map some
      | none => pure none
    pure (ParsedField.withSub (idField id?) name bytes value? groups, r')
  | .mk id? name byteSize _ _ _ (.bitmask masks) => do
    let (bytes, r') ← r.readBytes byteSize path
    let subs ← parseBitMasks bytes masks endianness reg
    pure (ParsedField.bitmasked (idField id?) name bytes [subs], r')
  | .mk id? name byteSize _ _ _ (.leaf parser?) => do
    let (bytes, r') ← r.readBytes byteSize path
    let value? ←
      match parser? with
      | some p => (parseFieldValue bytes p endianness reg).map some
      | none => pure none
    pure (ParsedField.direct (idField id?) name bytes value?, r')
termination_by (sizeOf fd, 0, 0)

/-- The repeat loop of `parseField`, `n` iterations. -/
def parseLoop (fd : FieldDefinition) (n : Nat) (r : Reader)
    (sectionFields : List ParsedField) (endianness : Endianness)
    (path : List String) (reg : String → Option (List Nat → ParsedValue)) :
    Except String (List ParsedField × Reader) :=
  match n with
  | 0 => pure ([], r)
  | n + 1 => do
    let (f, r') ← parseOne fd r sectionFields endianness path reg
    let (fs, r'') ← parseLoop fd n r' sectionFields endianness path reg
    pure (f :: fs, r'')
termination_by (sizeOf fd, 1, n)

/-- `fieldDef.subFields.map(subField => parseField(..., [...path, subField.name]))`. -/
def parseChildren (subs : List FieldDefinition) (r : Reader)
    (sectionFields : List ParsedField) (endianness : Endianness)
    (path : List String) (reg : String → Option (List Nat → ParsedValue)) :
    Except String (List (List ParsedField) × Reader) :=
  match subs with
  | [] => pure ([], r)
  | sub :: rest => do
    let (g, r') ← parseField sub r sectionFields endianness (path ++ [sub.name]) reg
    let (gs, r'') ← parseChildren rest r' sectionFields endianness path reg
    pure (g :: gs, r'')
termination_by (sizeOf subs, 3, 0)

/-- `parseField(sectionDef, fieldDef, reader, parsedSection, endianness, path)`
of `src/parser.ts` (the unused `sectionDef` argument is dropped). -/
def parseField (fd : FieldDefinition) (r : Reader)
    (sectionFields : List ParsedField) (endianness : Endianness)
    (path : List String) (reg : String → Option (List Nat → ParsedValue)) :
    Except String (List ParsedField × Reader) :=
  if (match fd.if? with
      | some c => ! checkFieldCondition sectionFields c
      | none => false) then
    pure ([], r)
  else do
    let repeatCount ← resolveRepeatCount fd.repeat? sectionFields path
    let (parsedFields, r') ←
      parseLoop fd repeatCount.toNat r sectionFields endianness path reg
    match fd.assert? with
    | some a =>
      -- `fieldDef.repeat ? parsedFields : parsedFields[0]`; in the single
      -- case the loop ran exactly once, so `headD` never uses its default.
      let target : Sum (List ParsedField) ParsedField :=
        if repeatTruthy fd.repeat? then .inl parsedFields
        else .inr (parsedFields.headD (ParsedField.direct none "" [] none))
      if assertCondition target a then pure (parsedFields, r')
      else .error ("Assertion failed for field " ++ String.intercalate "." path)
    | none => pure (parsedFields, r')
termination_by (sizeOf fd, 2, 0)

end

/-! ## Section and structure resolvers -/

/-- The `for (const fieldDef of sectionDef.fields)` loop of `parseSection`,
accumulating `parsedSection.fields`. -/
def parseSectionFields (endianness : Endianness)
    (reg : String → Option (List Nat → ParsedValue)) (sectionName : String) :
    List FieldDefinition → Reader → List ParsedField →
    Except String (List ParsedField × Reader)
  | [], r, acc => pure (acc, r)
  | fd :: rest, r, acc => do
    let (fs, r') ← parseField fd r acc endianness [sectionName, fd.name] reg
    parseSectionFields endianness reg sectionName rest r' (acc ++ fs)

/-- `parseSection` of `src/parser.ts`. -/
def parseSection (sectionDef : SectionDefinition) (r : Reader)
    (endianness : Endianness)
    (reg : String → Option (List Nat → ParsedValue)) :
    Except String (ParsedSection × Reader) :=
  (parseSectionFields endianness reg sectionDef.name sectionDef.fields r []).map
    (fun p => ({ name := sectionDef.name, fields := p.1 }, p.2))

/-- `definition.sections.map(sectionDef => parseSection(...))` over the shared
reader. -/
def parseSections (endianness : Endianness)
    (reg : String → Option (List Nat → ParsedValue)) :
    List SectionDefinition → Reader →
    Except String (List ParsedSection × Reader)
  | [], r => pure ([], r)
  | s :: rest, r => do
    let (ps, r') ← parseSection s r endianness reg
    let (rest', r'') ← parseSections endianness reg rest r'
    pure (ps :: rest', r'')

/-- `parseStructureWithReader(definition, reader)` of `src/parser.ts`;
`definition.endian || "little"`. -/
def parseStructureWithReader (d : StructureDefinition) (r : Reader)
    (reg : String → Option (List Nat → ParsedValue)) :
    Except String ParsedStructure :=
  (parseSections (d.endian?.getD .little) reg d.sections r).map (·.1)

/-- `parseStructure(definition, bytes)` of `src/parser.ts`: a fresh
`DefaultUint8ArrayReader` over the (Uint8Array-converted) input bytes; the
process-wide `CUSTOM_PARSERS` map becomes the explicit `reg` argument,
accessed only through its `get` view. -/
def parseStructure (d : StructureDefinition) (bytes : List Nat)
    (reg : Registry) : Except String ParsedStructure :=
  parseStructureWithReader d (.default (bytes.map (· % 256)) 0) (Registry.get reg)

end Speck.Parser

namespace Speck.Generator

open Speck

/-! ## The generator (`src/unnamed/part_006`) -/

/-- `generateStructure(structDefinition, customByteData?)`: the parser run
against a `Uint8ArrayGeneratorReader`. -/
def generateStructure (d : StructureDefinition) (defaults : Option CustomBytes)
    (reg : String → Option (List Nat → ParsedValue)) :
    Except String ParsedStructure :=
  Parser.parseStructureWithReader d (.generator defaults) reg

/-- `convertStructureToBytes(struct)`: every section's top-level fields'
captured bytes, concatenated in order (children of nested fields contribute
through their parent's capture only), then passed through
`new Uint8Array(...)`. -/
def convertStructureToBytes (s : ParsedStructure) : List Nat :=
  (s.flatMap (fun sec => sec.fields.flatMap ParsedField.bytes)).map (· % 256)

/-- `generateBytes(structDefinition, customByteData?)`. -/
def generateBytes (d : StructureDefinition) (defaults : Option CustomBytes)
    (reg : String → Option (List Nat → ParsedValue)) :
    Except String (List Nat) :=
  (generateStructure d defaults reg).map convertStructureToBytes

end Speck.Generator

namespace Speck

open Speck.Parser

/-! ## Claim-support definitions

Vocabulary for stating the claims: predicates classifying schemas and a few
concrete schemas used as counterexample inputs.  These are not translations
of source code; every behavioural definition above is. -/

/-- The four atomic (id-referencing comparison) condition shapes, returning
the referenced id. -/
def atomicCondId : FieldCondition → Option String
  | .equals id _ => some id
  | .lessThan id _ => some id
  | .greaterThan id _ => some id
  | .includes id _ => some id
  | _ => none

/-- An atomic condition whose referenced id is not resolvable in `ctx`. -/
def unresolvedAtomic (ctx : List ParsedField) (c : FieldCondition) : Prop :=
  ∃ id, atomicCondId c = some id ∧ findFieldById id ctx = none

/-- A field with no condition, no repeat and no nested children
(bit-masked and plain fields qualify). -/
def FieldDefinition.flatPlain : FieldDefinition → Bool
  | .mk _ _ _ r? i? _ body =>
    r?.isNone && i?.isNone &&
      (match body with
       | .nested _ _ => false
       | _ => true)

/-- A structure definition all of whose fields are flat and plain. -/
def StructureDefinition.flatPlain (d : StructureDefinition) : Bool :=
  d.sections.all fun s => s.fields.all FieldDefinition.flatPlain

/-- No default entry located at a field's path is longer than that field's
`byteSize` (entries of exactly the field's size, missing entries, and
entries that make generation fail are all allowed). -/
def fieldOversizeFree (defaults : Option CustomBytes) (sectionName : String)
    (fd : FieldDefinition) : Bool :=
  match walkPath defaults [sectionName, fd.name]
      (String.intercalate "." [sectionName, fd.name]) with
  | .ok (some (.leafBytes l)) => decide (l.length ≤ fd.byteSize)
  | _ => true

/-- `fieldOversizeFree` over every field of the structure. -/
def oversizeFree (d : StructureDefinition) (defaults : Option CustomBytes) : Bool :=
  d.sections.all fun s => s.fields.all (fieldOversizeFree defaults s.name)

/-- What one repeat iteration produces for a flat field (the non-nested
cases of `parseOne`, with the bytes already read). -/
def mkFlatField (fd : FieldDefinition) (bytes : List Nat) (endianness : Endianness)
    (reg : String → Option (List Nat → ParsedValue)) : Except String ParsedField :=
  match fd with
  | .mk id? name _ _ _ _ (.bitmask masks) =>
    (parseBitMasks bytes masks endianness reg).map
      (fun subs => .bitmasked (idField id?) name bytes [subs])
  | .mk id? name _ _ _ _ (.leaf parser?) =>
    (match parser? with
     | some p => (parseFieldValue bytes p endianness reg).map some
     | none => pure none).map
      (fun v? => .direct (idField id?) name bytes v?)
  | .mk _ _ _ _ _ _ (.nested _ _) => .error "not a flat field"

/-- The assertion step of `parseField` for a single (non-repeated) instance. -/
def applyAssert (fd : FieldDefinition) (path : List String) (pf : ParsedField) :
    Except String Unit :=
  match fd.assert? with
  | some a =>
    if assertCondition (.inr pf) a then pure ()
    else .error ("Assertion failed for field " ++ String.intercalate "." path)
  | none => pure ()

/-- The bytes captured by a list of parsed fields, in order. -/
def bytesOfFields (fs : List ParsedField) : List Nat :=
  fs.flatMap ParsedField.bytes

/-- The bytes captured by a list of parsed sections, in order (the inner
flattening of `convertStructureToBytes`). -/
def bytesOfSections (pss : List ParsedSection) : List Nat :=
  pss.flatMap (fun s => bytesOfFields s.fields)

/-- Counterexample schema for C4: a literal `repeat: 0`. -/
def c4LitZeroField : FieldDefinition :=
  .mk none "f" 1 (some (.lit 0)) none none (.leaf none)

/-- Counterexample schema for C5: a field gated by `not(equals("x", 1))`
with no field `x` in scope. -/
def c5NotGatedField : FieldDefinition :=
  .mk none "g" 1 none (some (.not (.equals "x" (.num 1)))) none (.leaf none)

/-- The child field of `c1NestedDef` (size 2, plain leaf). -/
def c1Child : FieldDefinition := .mk none "child" 2 none none none (.leaf none)

/-- The parent field of `c1NestedDef` (declared size 1, one nested child). -/
def c1Parent : FieldDefinition := .mk none "parent" 1 none none none (.nested [c1Child] none)

/-- The single section of `c1NestedDef`. -/
def c1Sec : SectionDefinition := { name := "S", fields := [c1Parent] }

/-- The parsed field `generateStructure` yields for `c1Parent`. -/
def c1ParsedParent : ParsedField :=
  .withSub none "parent" [0] none [[.direct none "child" [0, 0] none]]

/-- The parsed section `generateStructure` yields for `c1NestedDef`. -/
def c1ParsedSec : ParsedSection := { name := "S", fields := [c1ParsedParent] }

/-- Counterexample schema for C1: one section holding a nested field of
declared size 1 whose single child has size 2. -/
def c1NestedDef : StructureDefinition :=
  { name := "X", endian? := none, sections := [c1Sec] }

/-- Witness schema for the amended C1: two plain fields and a bit-masked
field, one field covered by an exact-size default entry. -/
def c1FlatDef : StructureDefinition :=
  { name := "W", endian? := none,
    sections := [
      { name := "S",
        fields := [
          .mk (some "len") "length" 2 none none none (.leaf (some .uint)),
          .mk none "flags" 1 none none none
            (.bitmask [
              { id? := none, name := "a", length? := some 1, parser? := none },
              { id? := none, name := "b", length? := some 7, parser? := some .uint }])] }] }

/-- Defaults for `c1FlatDef`: an exact-size entry for the first field. -/
def c1FlatDefaults : CustomBytes :=
  .node [("S", .node [("length", .leafBytes [3, 1])])]

/-- Counterexample mask for C10: 8 declared bits, decoded through the enum
mapping `{"1": "A"}`. -/
def c10EnumMask : BitMaskDefinition :=
  { id? := none, name := "m", length? := some 8,
    parser? := some (.enum [("1", .str "A")]) }

end Speck
namespace Speck

open Speck.Parser Speck.Generator

/-! # Theorems

Shared helper lemmas first, then one theorem per claim (with witnesses and
counterexamples where required). -/

/-- `Except` bind on a success, for unfolding the parser's `do` blocks. -/
theorem except_bind_ok (a : α) (f : α → Except String β) :
    (Except.ok a : Except String α) >>= f = f a := rfl

/-- `Except` bind on a failure. -/
theorem except_bind_error (e : String) (f : α → Except String β) :
    (Except.error e : Except String α) >>= f = .error e := rfl

/-- `pure` into `Except`. -/
theorem except_pure (a : α) : (pure a : Except String α) = .ok a := rfl

/-! ## Bit-extractor helper lemmas -/

/-- A bit read entirely past the end of the data is `0`
(`undefined >> k & 1` in JavaScript). -/
theorem jsBit_past_end (data : List Nat) (pos : Nat) (h : 8 * data.length ≤ pos) :
    Parser.jsBit data pos = 0 := by
  unfold Parser.jsBit
  rw [List.getD_eq_default _ _ (by omega)]
  simp

/-- A result byte assembled entirely past the end of the data is `0`. -/
theorem resultByte_past_end (data : List Nat) (off start cnt : Nat)
    (h : 8 * data.length ≤ off + start) :
    Parser.resultByte data off start cnt = 0 := by
  unfold Parser.resultByte
  induction cnt with
  | zero => simp
  | succ n ih =>
    rw [List.range_succ, List.foldl_append, ih]
    simp only [List.foldl_cons, List.foldl_nil]
    rw [jsBit_past_end data _ (by omega)]
    simp

/-- `parser.ts` `readBits` requested entirely past the end of the data
succeeds and returns all-zero bytes, advancing the cursor as usual. -/
theorem readBits_past_end (data : List Nat) (off n : Nat)
    (h : 8 * data.length ≤ off) :
    Parser.readBits data off (n : Int) = .ok (List.replicate ((n + 7) / 8) 0, off + n) := by
  unfold Parser.readBits
  rw [if_neg (by omega)]
  simp only [Int.toNat_ofNat]
  congr 1
  refine Prod.ext ?_ rfl
  simp only
  rw [show List.replicate ((n + 7) / 8) (0 : Nat)
        = List.map (fun _ => (0 : Nat)) (List.range ((n + 7) / 8)) by simp]
  refine List.map_congr_left ?_
  intro j _
  exact resultByte_past_end data off (8 * j) _ (by omega)

/-- `parser.ts` `readBits` never fails on a non-negative count. -/
theorem readBits_ok_of_nonneg (data : List Nat) (off : Nat) (count : Int)
    (h : 0 ≤ count) :
    (Parser.readBits data off count).isOk = true := by
  unfold Parser.readBits
  rw [if_neg (by omega)]
  rfl

/-! ## C2 — bit order of the extractor -/

/--
**C2, counterexample.**  The claim says the extractor consumes bits
MSB-first, so that the first 1-bit mask of the payload byte `0x80` yields
bit 7, i.e. `1`.  The extractor of `src/parser.ts` (the one `parseBitMasks`
uses) returns `0` for that request: it consumes the *least* significant bit
first.
-/
theorem c2_bit_order_counterexample :
    Parser.readBits [128] 0 1 = .ok ([0], 1) ∧ (128 >>> 7) &&& 1 = 1 := by
  constructor
  · rfl
  · decide

set_option maxRecDepth 100000 in
/--
**C2, amended.**  For a one-byte payload split into bit-lengths {1, 3, 4}:
the extractor of `src/parser.ts` is LSB-first with LSB-first packing — the
three requests yield bit 0, bits 3–1 and bits 7–4 (each right-aligned); the
*legacy* extractor of `src/unnamed/part_000` behaves as the claim states —
MSB-first, yielding bit 7, bits 6–4 and bits 3–0, each right-aligned.
-/
theorem c2_bit_order (b : Nat) (hb : b < 256) :
    (Parser.readBits [b] 0 1 = .ok ([b &&& 1], 1)
      ∧ Parser.readBits [b] 1 3 = .ok ([(b >>> 1) &&& 7], 4)
      ∧ Parser.readBits [b] 4 4 = .ok ([(b >>> 4) &&& 15], 8))
  ∧ (Legacy.readBits [b] 0 1 = .ok ([(b >>> 7) &&& 1], 1)
      ∧ Legacy.readBits [b] 1 3 = .ok ([(b >>> 4) &&& 7], 4)
      ∧ Legacy.readBits [b] 4 4 = .ok ([b &&& 15], 8)) := by
  have key : ∀ c : Fin 256,
      (Parser.readBits [c.val] 0 1 = .ok ([c.val &&& 1], 1)
        ∧ Parser.readBits [c.val] 1 3 = .ok ([(c.val >>> 1) &&& 7], 4)
        ∧ Parser.readBits [c.val] 4 4 = .ok ([(c.val >>> 4) &&& 15], 8))
      ∧ (Legacy.readBits [c.val] 0 1 = .ok ([(c.val >>> 7) &&& 1], 1)
        ∧ Legacy.readBits [c.val] 1 3 = .ok ([(c.val >>> 4) &&& 7], 4)
        ∧ Legacy.readBits [c.val] 4 4 = .ok ([c.val &&& 15], 8)) := by decide
  exact key ⟨b, hb⟩

/-- **C2, witness**: the amended theorem at the payload byte `0xB5`. -/
theorem c2_bit_order_witness :
    Parser.readBits [181] 1 3 = .ok ([2], 4)
  ∧ Legacy.readBits [181] 1 3 = .ok ([3], 4) :=
  ⟨((c2_bit_order 181 (by decide)).1.2.1), ((c2_bit_order 181 (by decide)).2.2.1)⟩

/-! ## C3 — enum decoding -/

/--
**C3** (code bug).  On a 1-byte field the enum decoder behaves exactly as
the claim states: mapping `{"0x01":"A","2":"B"}` sends byte `0x01` to `"A"`,
byte `0x02` to `"B"` and byte `0x03` to a decode error.  On 2- and 4-byte
fields, however, the code writes each candidate key into a scratch
`DataView` and compares the read-back against the key itself, never
consulting the field bytes: a 2-byte field holding `3` with mapping
`{"1":"A"}` decodes to `"A"` instead of failing, because `1 < 2^16`.
-/
theorem c3_enum_code_bug :
    parseFieldValue [1] (.enum [("0x01", .str "A"), ("2", .str "B")]) .little
        (fun _ => none) = .ok (.str "A")
  ∧ parseFieldValue [2] (.enum [("0x01", .str "A"), ("2", .str "B")]) .little
        (fun _ => none) = .ok (.str "B")
  ∧ parseFieldValue [3] (.enum [("0x01", .str "A"), ("2", .str "B")]) .little
        (fun _ => none) = .error "Value 0x03 not found in enum mapping"
  ∧ parseFieldValue [3, 0] (.enum [("1", .str "A")]) .little
        (fun _ => none) = .ok (.str "A")
  ∧ dataViewUint [3, 0] true = 3 := by
  refine ⟨by decide, by decide, by decide, by decide, by decide⟩

/-! ## C6 — uint decoding -/

/--
**C6** (code bug).  The `uint` decoder of `src/parser.ts` ignores the
structure's endianness (it always calls the little-endian helper): the
2-byte field `[0x00, 0x01]` decodes to `256` under a *big*-endian structure,
although its big-endian unsigned interpretation (per the model's own
`DataView` reader) is `1`.  The helper also shifts through JavaScript's
32-bit signed `<<`, so even little-endian 4-byte values with the top bit set
come out negative: `[0, 0, 0, 0x80]` decodes to `-2^31` instead of `2^31`,
and the 5-byte value `2^32` collapses to `0`.
-/
theorem c6_uint_endianness_bug :
    parseFieldValue [0, 1] .uint .big (fun _ => none) = .ok (.num 256)
  ∧ dataViewUint [0, 1] false = 1
  ∧ parseFieldValue [0, 0, 0, 128] .uint .little (fun _ => none)
      = .ok (.num (-2147483648))
  ∧ parseFieldValue [0, 0, 0, 0, 1] .uint .little (fun _ => none) = .ok (.num 0) := by
  refine ⟨by decide, by decide, by decide, by decide⟩

/-! ## C7 — generation-mode readBytes -/

/--
**C7, counterexample.**  The claim says a successful generation-mode
`readBytes(n, path)` returns `n` bytes taken from the located entry; the
implementation returns the *entire* entry: with the entry `[1, 2]` at the
requested path, `readBytes(1, path)` returns both bytes.
-/
theorem c7_generator_oversized_counterexample :
    genReadBytes 1 ["a"] (some (.node [("a", .leafBytes [1, 2])])) = .ok [1, 2]
  ∧ ([1, 2] : List Nat).length ≠ 1 := by
  exact ⟨rfl, by decide⟩

/--
**C7, amended.**  Generation-mode `readBytes(n, path)`: when the defaults
tree has no entry at `path` it returns exactly `n` zero bytes; when the
located entry is an object, or a byte array of fewer than `n` bytes, it
fails (InvalidDefaults); otherwise it returns the **whole** located entry —
`Uint8Array`-converted — whose length is at least `n` but can exceed it.
-/
theorem c7_generator_read (count : Nat) (path : List String)
    (d : Option CustomBytes) :
    (walkPath d path (String.intercalate "." path) = .ok none →
      genReadBytes count path d = .ok (List.replicate count 0))
  ∧ (∀ entries, walkPath d path (String.intercalate "." path)
        = .ok (some (.node entries)) →
      genReadBytes count path d
        = .error ("Invalid path to custom byte data: " ++ String.intercalate "." path))
  ∧ (∀ l, walkPath d path (String.intercalate "." path)
        = .ok (some (.leafBytes l)) →
      (l.length < count →
        genReadBytes count path d
          = .error ("Not enough custom byte data for field " ++ String.intercalate "." path))
      ∧ (count ≤ l.length →
        genReadBytes count path d = .ok (l.map (· % 256))
          ∧ (l.map (· % 256)).length = l.length)) := by
  unfold genReadBytes
  refine ⟨fun h => by simp only [h], fun entries h => by simp only [h],
    fun l h => ⟨fun hlt => ?_, fun hle => ?_⟩⟩
  · simp only [h, if_pos hlt]
  · simp only [h, if_neg (show ¬ l.length < count by omega)]
    simp

/-- **C7, witness**: the amended theorem at the oversized entry `[1, 2]`
with `n = 1`, and at a missing path with `n = 3`. -/
theorem c7_generator_read_witness :
    genReadBytes 1 ["a"] (some (.node [("a", .leafBytes [1, 2])])) = .ok [1, 2]
  ∧ genReadBytes 3 ["b"] (some (.node [("a", .leafBytes [1, 2])])) = .ok [0, 0, 0] := by
  constructor
  · have h := ((c7_generator_read 1 ["a"]
      (some (.node [("a", .leafBytes [1, 2])]))).2.2 [1, 2] rfl).2 (by decide)
    exact h.1
  · have h := (c7_generator_read 3 ["b"]
      (some (.node [("a", .leafBytes [1, 2])]))).1 rfl
    exact h

/-! ## C8 — non-positive bit counts -/

/--
**C8, counterexample.**  The claim says every request with `count ≤ 0` is
rejected with an error; the extractor of `src/parser.ts` accepts `count = 0`
and returns an empty result.
-/
theorem c8_nonpositive_counterexample :
    Parser.readBits [5] 0 0 = .ok ([], 0) := by decide

/--
**C8, amended.**  The extractor of `src/parser.ts` rejects only strictly
negative counts — a zero count succeeds with an empty result and an
unmoved cursor; the *legacy* extractor of `src/unnamed/part_000` rejects
every non-positive count, as the claim states.
-/
theorem c8_nonpositive_counts (data : List Nat) (off : Nat) (count : Int) :
    (count < 0 → Parser.readBits data off count = .error "Cannot read negative bits")
  ∧ Parser.readBits data off 0 = .ok ([], off)
  ∧ (count ≤ 0 → Legacy.readBits data off count = .error "Bit count must be positive") := by
  refine ⟨fun h => ?_, ?_, fun h => ?_⟩
  · unfold Parser.readBits
    rw [if_pos h]
  · unfold Parser.readBits
    rw [if_neg (by omega)]
    simp
  · unfold Legacy.readBits
    rw [if_pos h]

/-- **C8, witness**: the amended theorem at counts `-1` and `0`. -/
theorem c8_nonpositive_counts_witness :
    Parser.readBits [1] 0 (-1) = .error "Cannot read negative bits"
  ∧ Parser.readBits [1] 0 0 = .ok ([], 0)
  ∧ Legacy.readBits [1] 0 0 = .error "Bit count must be positive" :=
  ⟨(c8_nonpositive_counts [1] 0 (-1)).1 (by decide),
   (c8_nonpositive_counts [1] 0 (-1)).2.1,
   (c8_nonpositive_counts [1] 0 0).2.2 (by decide)⟩

/-! ## C9 — determinism and registry read-only-ness of parsing -/

/--
**C9** (confirmed).  `parseStructure` is a pure function of the structure
definition, the input bytes and the *contents* of the custom-parser
registry: two runs against registries with identical lookup behaviour
return identical results.  The parse path only ever reads the registry
(`CUSTOM_PARSERS.get`); the mutating operations `registerCustomParser` /
`unregisterCustomParser` are separate entry points never invoked during a
parse, which the embedding reflects by `parseStructure` taking the registry
as a read-only argument.
-/
theorem c9_parse_deterministic (d : StructureDefinition) (bytes : List Nat)
    (m1 m2 : Registry) (h : ∀ k, Registry.get m1 k = Registry.get m2 k) :
    Parser.parseStructure d bytes m1 = Parser.parseStructure d bytes m2 := by
  unfold Parser.parseStructure
  rw [show Registry.get m1 = Registry.get m2 from funext h]

/-- **C9, witness**: two representations of the same one-entry registry
(one with a stale overwritten entry) parse identically. -/
theorem c9_parse_deterministic_witness :
    Parser.parseStructure
      { name := "T", endian? := none,
        sections := [
          { name := "S",
            fields := [.mk none "f" 1 none none none (.leaf (some .uint))] }] }
      [7]
      (registerCustomParser "p" (fun _ => .num 1) [])
    = Parser.parseStructure
      { name := "T", endian? := none,
        sections := [
          { name := "S",
            fields := [.mk none "f" 1 none none none (.leaf (some .uint))] }] }
      [7]
      (registerCustomParser "p" (fun _ => .num 1)
        (registerCustomParser "p" (fun _ => .num 0) [])) := by
  refine c9_parse_deterministic _ _ _ _ (fun k => ?_)
  unfold registerCustomParser Registry.get
  by_cases hk : k = "p" <;> simp [hk, List.find?]

/-! ## C10 — bitmask overflow past the payload -/

/-- The bit-mask loop of `src/parser.ts` never fails when every mask has a
non-negative length and no decoder: the extractor zero-fills past the end of
the payload instead of raising. -/
theorem parseBitMasksLoop_ok (bytes : List Nat) (e : Endianness)
    (reg : String → Option (List Nat → ParsedValue))
    (masks : List BitMaskDefinition) (off : Nat)
    (hm : ∀ m ∈ masks, m.parser? = none ∧ 0 ≤ m.length?.getD 1) :
    (parseBitMasksLoop bytes e reg masks off).isOk = true := by
  induction masks generalizing off with
  | nil => rfl
  | cons m rest ih =>
    obtain ⟨hp, hl⟩ := hm m (by simp)
    have hread : Parser.readBits bytes off (m.length?.getD 1)
        = .ok ((List.range (((m.length?.getD 1).toNat + 7) / 8)).map
            (fun j => Parser.resultByte bytes off (8 * j)
              (min 8 ((m.length?.getD 1).toNat - 8 * j))),
          off + (m.length?.getD 1).toNat) := by
      unfold Parser.readBits
      rw [if_neg (by omega)]
    have ihr := ih (off + (m.length?.getD 1).toNat)
      (fun m' hm' => hm m' (by simp [hm']))
    cases hrest : parseBitMasksLoop bytes e reg rest (off + (m.length?.getD 1).toNat) with
    | error err => rw [hrest] at ihr; simp [Except.isOk, Except.toBool] at ihr
    | ok fs =>
      unfold parseBitMasksLoop
      rw [hread]
      simp only [except_bind_ok, hp, hrest]
      rfl

/--
**C10, counterexample.**  The claim says an overflowing bitmask list "still
completes without raising an error" for every mask list; but a mask carrying
a decoder applies it to the past-end zero bits, which can throw.  On the
one-byte payload `[1]` (8 bits of capacity), two 8-bit masks decoded through
the enum `{"1": "A"}` declare 16 bits: the first reads value 1 and maps to
`"A"`, the second reads the past-end zeros as value 0, which matches no enum
key, and `parseBitMasks` fails with the enum `DecodeError`.
-/
theorem c10_bitmask_overflow_counterexample :
    parseBitMasks [1] [c10EnumMask, c10EnumMask] .little (fun _ => none)
      = .error "Value 0x00 not found in enum mapping"
  ∧ ([c10EnumMask, c10EnumMask].map
        (fun m => m.length?.getD 1)).foldl (· + ·) (0 : Int)
      > 8 * (([1] : List Nat).length : Int) := by
  constructor
  · rfl
  · decide

/--
**C10, amended.**  Every bit position read past the end of the payload
yields bit value `0` (each out-of-range read is JavaScript `undefined`,
which shifts and masks to `0`), and with decoder-free masks of non-negative
declared lengths `parseBitMasks` always succeeds, whatever the total
declared bit length; a mask that carries a decoder may still fail, because
the decoder is applied to the zero bits (see the counterexample).
-/
theorem c10_bitmask_overflow (data : List Nat) (masks : List BitMaskDefinition)
    (e : Endianness) (reg : String → Option (List Nat → ParsedValue))
    (off n : Nat)
    (hm : ∀ m ∈ masks, m.parser? = none ∧ 0 ≤ m.length?.getD 1) :
    (parseBitMasks data masks e reg).isOk = true
  ∧ (8 * data.length ≤ off →
      Parser.readBits data off (n : Int)
        = .ok (List.replicate ((n + 7) / 8) 0, off + n)) :=
  ⟨parseBitMasksLoop_ok data e reg masks 0 hm,
   fun h => readBits_past_end data off n h⟩

/-- **C10, witness**: a one-byte payload under masks declaring 1+3+4+16 = 24
bits; the reads past bit 8 are all zero. -/
theorem c10_bitmask_overflow_witness :
    (parseBitMasks [255]
      [{ id? := none, name := "a", length? := some 1, parser? := none },
       { id? := none, name := "b", length? := some 3, parser? := none },
       { id? := none, name := "c", length? := some 4, parser? := none },
       { id? := none, name := "d", length? := some 16, parser? := none }]
      .little (fun _ => none)).isOk = true
  ∧ Parser.readBits [255] 8 ((5 : Nat) : Int) = .ok ([0], 13) := by
  have h := c10_bitmask_overflow [255]
    [{ id? := none, name := "a", length? := some 1, parser? := none },
     { id? := none, name := "b", length? := some 3, parser? := none },
     { id? := none, name := "c", length? := some 4, parser? := none },
     { id? := none, name := "d", length? := some 16, parser? := none }]
    .little (fun _ => none) 8 5 (by decide)
  exact ⟨h.1, h.2 (by decide)⟩

/-! ## C5 — conditions over unresolved references -/

/-- An atomic condition whose referenced id is unresolved evaluates to
`false` (deliberately, not an error). -/
theorem check_atomic_unresolved (ctx : List ParsedField) (c : FieldCondition)
    (hc : unresolvedAtomic ctx c) :
    checkFieldCondition ctx c = false := by
  obtain ⟨id, hid, hmiss⟩ := hc
  cases c <;> simp only [atomicCondId, Option.some.injEq, reduceCtorEq] at hid <;>
    subst hid <;> simp [checkFieldCondition, hmiss]

/--
**C5, counterexample.**  The claim extends "unresolved reference ⇒ condition
false ⇒ field skipped" to every condition shape including `not`; but
`not(equals("x", 1))` with no field `x` in scope evaluates to *true*, so the
gated field is parsed — one instance, one byte consumed — not skipped.
-/
theorem c5_condition_not_counterexample :
    checkFieldCondition [] (.not (.equals "x" (.num 1))) = true
  ∧ parseField c5NotGatedField (.default [7] 0) [] .little ["S", "g"]
      (fun _ => none)
    = .ok ([.direct none "g" [7] none], .default [7] 1) := by
  constructor
  · simp [checkFieldCondition, findFieldById]
  · simp [parseField, parseLoop, parseOne, resolveRepeatCount, repeatTruthy,
      Reader.readBytes, idField, c5NotGatedField, FieldDefinition.if?,
      FieldDefinition.repeat?, FieldDefinition.assert?, checkFieldCondition,
      findFieldById, except_bind_ok]

/--
**C5, amended.**  An *atomic* comparison (`equals`, `lessThan`,
`greaterThan`, `includes`) whose referenced id has not been resolved earlier
in the section evaluates to `false` with no error, and a field gated by such
a condition is skipped: `parseField` returns the empty list and leaves the
reader untouched.  `or`-combinations of such conditions are `false`, as are
non-empty `and`-combinations; `not` of such a condition, however, evaluates
to `true` and the gated field is parsed.
-/
theorem c5_unresolved_condition (ctx : List ParsedField) (c : FieldCondition)
    (hc : unresolvedAtomic ctx c) :
    checkFieldCondition ctx c = false
  ∧ checkFieldCondition ctx (.not c) = true
  ∧ (∀ (fd : FieldDefinition) (r : Reader) (e : Endianness)
        (path : List String) (reg : String → Option (List Nat → ParsedValue)),
      fd.if? = some c → parseField fd r ctx e path reg = .ok ([], r))
  ∧ (∀ cs : List FieldCondition, (∀ c' ∈ cs, unresolvedAtomic ctx c') →
      checkFieldCondition ctx (.or cs) = false
      ∧ (cs ≠ [] → checkFieldCondition ctx (.and cs) = false)) := by
  refine ⟨check_atomic_unresolved ctx c hc, ?_, ?_, ?_⟩
  · simp [checkFieldCondition, check_atomic_unresolved ctx c hc]
  · intro fd r e path reg hif
    simp only [parseField, hif, check_atomic_unresolved ctx c hc,
      Bool.not_false, if_true]
    rfl
  · intro cs hcs
    constructor
    · show checkAny ctx cs = false
      induction cs with
      | nil => rfl
      | cons c' rest ih =>
        simp only [checkAny,
          check_atomic_unresolved ctx c' (hcs c' (by simp)), Bool.false_or]
        exact ih (fun c'' h'' => hcs c'' (by simp [h'']))
    · intro hne
      show checkAll ctx cs = false
      cases cs with
      | nil => exact absurd rfl hne
      | cons c' rest =>
        simp only [checkAll,
          check_atomic_unresolved ctx c' (hcs c' (by simp)), Bool.false_and]

/-- **C5, witness**: a field gated by `lessThan("x", 5)` with no field `x`
parsed earlier is skipped without consuming bytes. -/
theorem c5_unresolved_condition_witness :
    checkFieldCondition [] (.lessThan "x" 5) = false
  ∧ parseField (.mk none "g" 1 none (some (.lessThan "x" 5)) none (.leaf none))
      (.default [7] 0) [] .little ["S", "g"] (fun _ => none)
    = .ok ([], .default [7] 0) := by
  have h := c5_unresolved_condition [] (.lessThan "x" 5)
    ⟨"x", rfl, by simp [findFieldById]⟩
  exact ⟨h.1, h.2.2.1 _ _ _ _ _ rfl⟩

/-! ## C4 — repeat counts -/

/-- The repeat loop produces exactly one parsed instance per iteration. -/
theorem parseLoop_length (fd : FieldDefinition) (n : Nat) (r : Reader)
    (ctx : List ParsedField) (e : Endianness) (path : List String)
    (reg : String → Option (List Nat → ParsedValue))
    (fs : List ParsedField) (r' : Reader)
    (h : parseLoop fd n r ctx e path reg = .ok (fs, r')) :
    fs.length = n := by
  induction n generalizing r fs r' with
  | zero =>
    simp only [parseLoop] at h
    cases h
    rfl
  | succ n ih =>
    rw [parseLoop] at h
    cases h1 : parseOne fd r ctx e path reg with
    | error err => rw [h1] at h; exact absurd h (by simp [except_bind_error])
    | ok pr =>
      obtain ⟨pf, r1⟩ := pr
      rw [h1, except_bind_ok] at h
      dsimp only at h
      cases h2 : parseLoop fd n r1 ctx e path reg with
      | error err => rw [h2] at h; exact absurd h (by simp [except_bind_error])
      | ok pr2 =>
        obtain ⟨fs2, r2⟩ := pr2
        rw [h2, except_bind_ok] at h
        dsimp only at h
        rw [except_pure] at h
        cases h
        simpa using ih _ _ _ h2

/-- A successful `parseField` run produces exactly `repeatCount.toNat`
instances (conditions aside), whatever the assertion step does. -/
theorem parseField_length_of_count (fd : FieldDefinition) (r : Reader)
    (ctx : List ParsedField) (e : Endianness) (path : List String)
    (reg : String → Option (List Nat → ParsedValue)) (N : Int)
    (hif : fd.if? = none)
    (hcount : resolveRepeatCount fd.repeat? ctx path = .ok N)
    (fs : List ParsedField) (r' : Reader)
    (h : parseField fd r ctx e path reg = .ok (fs, r')) :
    fs.length = N.toNat := by
  rw [parseField] at h
  rw [if_neg (by simp [hif])] at h
  rw [hcount, except_bind_ok] at h
  cases hloop : parseLoop fd N.toNat r ctx e path reg with
  | error err => rw [hloop] at h; exact absurd h (by simp [except_bind_error])
  | ok pr =>
    obtain ⟨fs0, r0⟩ := pr
    rw [hloop, except_bind_ok] at h
    dsimp only at h
    cases hassert : fd.assert? with
    | none =>
      rw [hassert] at h
      dsimp only at h
      rw [except_pure] at h
      cases h
      exact parseLoop_length fd N.toNat r ctx e path reg _ _ hloop
    | some a =>
      rw [hassert] at h
      dsimp only at h
      by_cases hok : assertCondition
          (if repeatTruthy fd.repeat? = true then Sum.inl fs0
           else Sum.inr (fs0.headD (ParsedField.direct none "" [] none))) a = true
      · rw [if_pos hok, except_pure] at h
        cases h
        exact parseLoop_length fd N.toNat r ctx e path reg _ _ hloop
      · rw [if_neg hok] at h
        exact absurd h (by simp)

/-- With a truthy repeat resolving to `0`, `parseField` succeeds with no
instances and an untouched reader (an `assert` passes vacuously on the
empty instance list). -/
theorem parseField_count_zero (fd : FieldDefinition) (r : Reader)
    (ctx : List ParsedField) (e : Endianness) (path : List String)
    (reg : String → Option (List Nat → ParsedValue))
    (hif : fd.if? = none)
    (htr : repeatTruthy fd.repeat? = true)
    (hcount : resolveRepeatCount fd.repeat? ctx path = .ok 0) :
    parseField fd r ctx e path reg = .ok ([], r) := by
  rw [parseField]
  rw [if_neg (by simp [hif])]
  rw [hcount, except_bind_ok]
  have hloop : parseLoop fd (0 : Int).toNat r ctx e path reg = .ok ([], r) := by
    simp only [Int.toNat_zero, parseLoop]
    exact rfl
  rw [hloop, except_bind_ok]
  dsimp only
  cases hassert : fd.assert? with
  | none => exact rfl
  | some a =>
    dsimp only
    rw [if_pos htr]
    cases a with
    | is av =>
      rw [if_pos (show assertCondition (Sum.inl []) (AssertCondition.is av) = true
        by simp [assertCondition])]
      exact rfl

/--
**C4, counterexample.**  The claim says a field whose repeat resolves to the
literal integer `0` produces no instances and advances the cursor by zero.
But `if (fieldDef.repeat)` treats the literal `0` as *absent* (JavaScript
falsiness), so the repeat count stays `1`: the field below produces one
instance and consumes one byte.
-/
theorem c4_repeat_literal_zero_counterexample :
    parseField c4LitZeroField (.default [42] 0) [] .little ["S", "f"]
      (fun _ => none)
    = .ok ([.direct none "f" [42] none], .default [42] 1) := by
  simp [parseField, parseLoop, parseOne, resolveRepeatCount, repeatTruthy,
    Reader.readBytes, idField, c4LitZeroField, FieldDefinition.if?,
    FieldDefinition.repeat?, FieldDefinition.assert?, except_bind_ok]

/--
**C4, amended.**  For a condition-free field: a repeat that is an
id-reference to an earlier-parsed numeric field valued `N ≥ 0` produces
exactly `N` parsed instances on success, and for `N = 0` succeeds
unconditionally with no instances and an unmoved byte cursor.  A *literal*
repeat `n > 0` produces exactly `n` instances on success; the literal `0`,
however, is falsy and is treated as no repeat at all — one instance.
-/
theorem c4_repeat_count (fd : FieldDefinition) (r : Reader)
    (ctx : List ParsedField) (e : Endianness) (path : List String)
    (reg : String → Option (List Nat → ParsedValue))
    (hif : fd.if? = none) :
    (∀ (rid : String) (f : ParsedField) (N : Int),
      fd.repeat? = some (.ref rid) → rid ≠ "" →
      findFieldById rid ctx = some f → f.value? = some (.num N) →
      (∀ fs r', parseField fd r ctx e path reg = .ok (fs, r') →
        fs.length = N.toNat)
      ∧ (N = 0 → parseField fd r ctx e path reg = .ok ([], r)))
  ∧ (∀ n : Int, fd.repeat? = some (.lit n) → n ≠ 0 →
      ∀ fs r', parseField fd r ctx e path reg = .ok (fs, r') →
        fs.length = n.toNat)
  ∧ (fd.repeat? = some (.lit 0) →
      ∀ fs r', parseField fd r ctx e path reg = .ok (fs, r') →
        fs.length = 1) := by
  refine ⟨?_, ?_, ?_⟩
  · intro rid f N hrep hne hfind hval
    have hcount : resolveRepeatCount fd.repeat? ctx path = .ok N := by
      simp [resolveRepeatCount, repeatTruthy, hrep, hne, hfind, hval]
    refine ⟨fun fs r' h =>
      parseField_length_of_count fd r ctx e path reg N hif hcount fs r' h,
      fun hN => ?_⟩
    subst hN
    exact parseField_count_zero fd r ctx e path reg hif
      (by simp [repeatTruthy, hrep, hne]) hcount
  · intro n hrep hne fs r' h
    have hcount : resolveRepeatCount fd.repeat? ctx path = .ok n := by
      simp [resolveRepeatCount, repeatTruthy, hrep, hne]
    exact parseField_length_of_count fd r ctx e path reg n hif hcount fs r' h
  · intro hrep fs r' h
    have hcount : resolveRepeatCount fd.repeat? ctx path = .ok 1 := by
      simp [resolveRepeatCount, repeatTruthy, hrep]
    have := parseField_length_of_count fd r ctx e path reg 1 hif hcount fs r' h
    simpa using this

/-- **C4, witness**: a repeat referencing a field valued `2` yields two
instances; referencing a field valued `0` yields none and leaves the
reader at offset 0. -/
theorem c4_repeat_count_witness :
    ([ParsedField.direct none "f" [5] none,
      ParsedField.direct none "f" [6] none].length = ((2 : Int)).toNat)
  ∧ parseField (.mk none "f" 1 (some (.ref "n")) none none (.leaf none))
      (.default [5, 6] 0) [.direct (some "n") "count" [0] (some (.num 0))]
      .little ["S", "f"] (fun _ => none)
    = .ok ([], .default [5, 6] 0) := by
  constructor
  · have hrun : parseField (.mk none "f" 1 (some (.ref "n")) none none (.leaf none))
        (.default [5, 6] 0) [.direct (some "n") "count" [2] (some (.num 2))]
        .little ["S", "f"] (fun _ => none)
      = .ok ([.direct none "f" [5] none, .direct none "f" [6] none],
          .default [5, 6] 2) := by
      simp [parseField, parseLoop, parseOne, resolveRepeatCount, repeatTruthy,
        Reader.readBytes, idField, FieldDefinition.if?, FieldDefinition.repeat?,
        FieldDefinition.assert?, findFieldById, ParsedField.id?,
        ParsedField.value?, except_bind_ok]
    exact ((c4_repeat_count
        (.mk none "f" 1 (some (.ref "n")) none none (.leaf none))
        (.default [5, 6] 0) [.direct (some "n") "count" [2] (some (.num 2))]
        .little ["S", "f"] (fun _ => none) rfl).1 "n"
      (.direct (some "n") "count" [2] (some (.num 2))) 2 rfl (by decide)
      (by simp [findFieldById, ParsedField.id?]) rfl).1 _ _ hrun
  · exact ((c4_repeat_count
        (.mk none "f" 1 (some (.ref "n")) none none (.leaf none))
        (.default [5, 6] 0) [.direct (some "n") "count" [0] (some (.num 0))]
        .little ["S", "f"] (fun _ => none) rfl).1 "n"
      (.direct (some "n") "count" [0] (some (.num 0))) 0 rfl (by decide)
      (by simp [findFieldById, ParsedField.id?]) rfl).2 rfl

/-! ## C1 — generate/parse round trip -/

/-- Bytes of a `Uint8Array`-converted list are themselves. -/
theorem map_mod256_id (l : List Nat) (h : ∀ x ∈ l, x < 256) :
    l.map (· % 256) = l := by
  induction l with
  | nil => rfl
  | cons a rest ih =>
    simp only [List.map_cons, List.cons.injEq]
    exact ⟨Nat.mod_eq_of_lt (h a (by simp)),
      ih (fun x hx => h x (by simp [hx]))⟩

/-- `mkFlatField` keeps the bytes it is given. -/
theorem mkFlatField_bytes (fd : FieldDefinition) (bytes : List Nat)
    (e : Endianness) (reg : String → Option (List Nat → ParsedValue))
    (pf : ParsedField) (h : mkFlatField fd bytes e reg = .ok pf) :
    pf.bytes = bytes := by
  obtain ⟨id?, name, byteSize, r?, i?, a?, body⟩ := fd
  cases body with
  | nested subs p? => exact absurd h (by simp [mkFlatField])
  | bitmask masks =>
    cases hb : parseBitMasks bytes masks e reg with
    | error err => rw [mkFlatField, hb] at h; exact absurd h (by simp [Except.map])
    | ok subs =>
      rw [mkFlatField, hb] at h
      simp only [Except.map, Except.ok.injEq] at h
      rw [← h]
      rfl
  | leaf p? =>
    cases p? with
    | none =>
      rw [mkFlatField] at h
      rw [except_pure] at h
      cases h
      rfl
    | some p =>
      cases hv : parseFieldValue bytes p e reg with
      | error err => rw [mkFlatField, hv] at h; exact absurd h (by simp [Except.map])
      | ok v =>
        rw [mkFlatField, hv] at h
        simp only [Except.map, Except.ok.injEq] at h
        rw [← h]
        rfl

/-- For a flat, condition- and repeat-free field, `parseField` is: read the
declared bytes, build the single instance, check the assertion. -/
theorem flat_parseField_eq (fd : FieldDefinition) (hflat : fd.flatPlain = true)
    (r : Reader) (ctx : List ParsedField) (e : Endianness) (path : List String)
    (reg : String → Option (List Nat → ParsedValue)) :
    parseField fd r ctx e path reg =
      match r.readBytes fd.byteSize path with
      | .error err => .error err
      | .ok (bytes, r') =>
        match mkFlatField fd bytes e reg with
        | .error err => .error err
        | .ok pf =>
          match applyAssert fd path pf with
          | .error err => .error err
          | .ok _ => .ok ([pf], r') := by
  obtain ⟨id?, name, byteSize, r?, i?, a?, body⟩ := fd
  simp only [FieldDefinition.flatPlain, Bool.and_eq_true, Option.isNone_iff_eq_none] at hflat
  obtain ⟨⟨hr, hi⟩, hbody⟩ := hflat
  subst hr hi
  cases body with
  | nested subs p? => simp at hbody
  | bitmask masks =>
    cases hrb : Reader.readBytes r byteSize path with
    | error err =>
      simp [parseField, parseLoop, parseOne, resolveRepeatCount, repeatTruthy,
        FieldDefinition.if?, FieldDefinition.repeat?, FieldDefinition.assert?,
        FieldDefinition.byteSize, mkFlatField, applyAssert, hrb,
        except_bind_ok, except_bind_error, except_pure]
    | ok br =>
      obtain ⟨bytes, r'⟩ := br
      cases hb : parseBitMasks bytes masks e reg with
      | error err =>
        simp [parseField, parseLoop, parseOne, resolveRepeatCount, repeatTruthy,
          FieldDefinition.if?, FieldDefinition.repeat?, FieldDefinition.assert?,
          FieldDefinition.byteSize, mkFlatField, applyAssert, hrb, hb,
          except_bind_ok, except_bind_error, except_pure, Except.map]
      | ok subs =>
        simp only [parseField, parseLoop, parseOne, resolveRepeatCount, repeatTruthy,
          FieldDefinition.if?, FieldDefinition.repeat?, FieldDefinition.assert?,
          FieldDefinition.byteSize, mkFlatField, applyAssert, hrb, hb,
          except_bind_ok, except_bind_error, except_pure, Except.map,
          Int.toNat_one, List.headD_cons, Bool.false_eq_true, if_false,
          Bool.not_false, reduceCtorEq]
        cases ha : a? with
        | none => rfl
        | some a =>
          dsimp only
          split <;> rfl
  | leaf p? =>
    cases hrb : Reader.readBytes r byteSize path with
    | error err =>
      simp [parseField, parseLoop, parseOne, resolveRepeatCount, repeatTruthy,
        FieldDefinition.if?, FieldDefinition.repeat?, FieldDefinition.assert?,
        FieldDefinition.byteSize, mkFlatField, applyAssert, hrb,
        except_bind_ok, except_bind_error, except_pure]
    | ok br =>
      obtain ⟨bytes, r'⟩ := br
      cases p? with
      | none =>
        simp only [parseField, parseLoop, parseOne, resolveRepeatCount, repeatTruthy,
          FieldDefinition.if?, FieldDefinition.repeat?, FieldDefinition.assert?,
          FieldDefinition.byteSize, mkFlatField, applyAssert, hrb,
          except_bind_ok, except_bind_error, except_pure, Except.map,
          Int.toNat_one, List.headD_cons, Bool.false_eq_true, if_false,
          Bool.not_false, reduceCtorEq]
        cases ha : a? with
        | none => rfl
        | some a =>
          dsimp only
          split <;> rfl
      | some p =>
        cases hv : parseFieldValue bytes p e reg with
        | error err =>
          simp [parseField, parseLoop, parseOne, resolveRepeatCount, repeatTruthy,
            FieldDefinition.if?, FieldDefinition.repeat?, FieldDefinition.assert?,
            FieldDefinition.byteSize, mkFlatField, applyAssert, hrb, hv,
            except_bind_ok, except_bind_error, except_pure, Except.map]
        | ok v =>
          simp only [parseField, parseLoop, parseOne, resolveRepeatCount, repeatTruthy,
            FieldDefinition.if?, FieldDefinition.repeat?, FieldDefinition.assert?,
            FieldDefinition.byteSize, mkFlatField, applyAssert, hrb, hv,
            except_bind_ok, except_bind_error, except_pure, Except.map,
            Int.toNat_one, List.headD_cons, Bool.false_eq_true, if_false,
            Bool.not_false, reduceCtorEq]
          cases ha : a? with
          | none => rfl
          | some a =>
            dsimp only
            split <;> rfl

/-- Facts about a successful generation-mode read: at least `count` bytes,
all byte-valued, and either the zero-fill of exactly `count` bytes or the
converted located entry. -/
theorem genReadBytes_ok_facts (count : Nat) (path : List String)
    (d : Option CustomBytes) (bs : List Nat)
    (h : genReadBytes count path d = .ok bs) :
    count ≤ bs.length ∧ (∀ x ∈ bs, x < 256) ∧
    (bs.length = count ∨
      ∃ l, walkPath d path (String.intercalate "." path)
          = .ok (some (.leafBytes l)) ∧ bs = l.map (· % 256)) := by
  rw [genReadBytes] at h
  cases hw : walkPath d path (String.intercalate "." path) with
  | error err => rw [hw] at h; exact absurd h (by simp)
  | ok entry =>
    rw [hw] at h
    match entry with
    | none =>
      simp only [Except.ok.injEq] at h
      subst h
      refine ⟨by simp, ?_, .inl (by simp)⟩
      intro x hx
      rw [List.eq_of_mem_replicate hx]
      omega
    | some (.node entries) => exact absurd h (by simp)
    | some (.leafBytes l) =>
      dsimp only at h
      by_cases hlen : l.length < count
      · rw [if_pos hlen] at h; exact absurd h (by simp)
      · rw [if_neg hlen] at h
        simp only [Except.ok.injEq] at h
        subst h
        refine ⟨by simp; omega, ?_, .inr ⟨l, rfl, rfl⟩⟩
        intro x hx
        rcases List.mem_map.mp hx with ⟨y, _, rfl⟩
        omega

/-- The field-level round trip: a flat field resolved in generation mode
produces one instance whose captured bytes have exactly the declared size,
and re-parsing those bytes from a real reader reproduces the instance. -/
theorem flat_field_roundtrip (fd : FieldDefinition) (hflat : fd.flatPlain = true)
    (d : Option CustomBytes) (sname : String)
    (hov : fieldOversizeFree d sname fd = true)
    (ctx : List ParsedField) (e : Endianness)
    (reg : String → Option (List Nat → ParsedValue))
    (fs : List ParsedField) (rr : Reader)
    (hgen : parseField fd (.generator d) ctx e [sname, fd.name] reg = .ok (fs, rr)) :
    rr = .generator d ∧
    ∃ pf, fs = [pf] ∧ pf.bytes.length = fd.byteSize ∧ (∀ x ∈ pf.bytes, x < 256) ∧
    ∀ (buffer : List Nat) (off : Nat) (ctx' : List ParsedField),
      off + fd.byteSize ≤ buffer.length →
      (buffer.drop off).take fd.byteSize = pf.bytes →
      parseField fd (.default buffer off) ctx' e [sname, fd.name] reg
        = .ok ([pf], .default buffer (off + fd.byteSize)) := by
  rw [flat_parseField_eq fd hflat] at hgen
  cases hrb : genReadBytes fd.byteSize [sname, fd.name] d with
  | error err =>
    rw [show Reader.readBytes (.generator d) fd.byteSize [sname, fd.name]
          = (genReadBytes fd.byteSize [sname, fd.name] d).map
              (fun bs => (bs, .generator d)) from rfl, hrb] at hgen
    exact absurd hgen (by simp [Except.map])
  | ok bs =>
    rw [show Reader.readBytes (.generator d) fd.byteSize [sname, fd.name]
          = (genReadBytes fd.byteSize [sname, fd.name] d).map
              (fun bs => (bs, .generator d)) from rfl, hrb] at hgen
    simp only [Except.map] at hgen
    cases hmk : mkFlatField fd bs e reg with
    | error err => rw [hmk] at hgen; exact absurd hgen (by simp)
    | ok pf =>
      rw [hmk] at hgen
      dsimp only at hgen
      cases hass : applyAssert fd [sname, fd.name] pf with
      | error err => rw [hass] at hgen; exact absurd hgen (by simp)
      | ok u =>
        rw [hass] at hgen
        simp only [Except.ok.injEq, Prod.mk.injEq] at hgen
        obtain ⟨hfs, hrr⟩ := hgen
        subst hfs
        refine ⟨hrr.symm, pf, rfl, ?_, ?_, ?_⟩
        · -- exact declared size
          obtain ⟨hge, _, hcase⟩ :=
            genReadBytes_ok_facts fd.byteSize [sname, fd.name] d bs hrb
          rw [mkFlatField_bytes fd bs e reg pf hmk]
          rcases hcase with hlen | ⟨l, hwalk, hbs⟩
          · exact hlen
          · rw [fieldOversizeFree, hwalk] at hov
            simp only [decide_eq_true_eq] at hov
            have : bs.length = l.length := by rw [hbs]; simp
            omega
        · intro x hx
          rw [mkFlatField_bytes fd bs e reg pf hmk] at hx
          exact (genReadBytes_ok_facts fd.byteSize [sname, fd.name] d bs hrb).2.1 x hx
        · intro buffer off ctx' hbound hslice
          rw [flat_parseField_eq fd hflat]
          rw [show Reader.readBytes (.default buffer off) fd.byteSize [sname, fd.name]
                = .ok ((buffer.drop off).take fd.byteSize, .default buffer (off + fd.byteSize))
              from by rw [Reader.readBytes, if_neg (by omega)]]
          rw [hslice, mkFlatField_bytes fd bs e reg pf hmk]
          dsimp only
          rw [hmk]
          dsimp only
          rw [hass]

/-- The section-level round trip: flat fields resolved in generation mode
append instances whose concatenated bytes, re-read from a real reader,
reproduce exactly those instances. -/
theorem flat_fields_roundtrip (fds : List FieldDefinition)
    (d : Option CustomBytes) (sname : String)
    (hflat : ∀ fd ∈ fds, fd.flatPlain = true)
    (hov : ∀ fd ∈ fds, fieldOversizeFree d sname fd = true)
    (e : Endianness) (reg : String → Option (List Nat → ParsedValue))
    (acc out : List ParsedField) (rr : Reader)
    (hgen : parseSectionFields e reg sname fds (.generator d) acc = .ok (out, rr)) :
    rr = .generator d ∧
    ∃ new, out = acc ++ new ∧ (∀ x ∈ bytesOfFields new, x < 256) ∧
    ∀ (buffer : List Nat) (off : Nat) (acc' : List ParsedField),
      off + (bytesOfFields new).length ≤ buffer.length →
      (buffer.drop off).take (bytesOfFields new).length = bytesOfFields new →
      parseSectionFields e reg sname fds (.default buffer off) acc'
        = .ok (acc' ++ new, .default buffer (off + (bytesOfFields new).length)) := by
  induction fds generalizing acc out rr with
  | nil =>
    rw [parseSectionFields] at hgen
    cases hgen
    refine ⟨rfl, [], by simp, by simp [bytesOfFields], ?_⟩
    intro buffer off acc' _ _
    rw [parseSectionFields]
    simp [bytesOfFields, except_pure]
  | cons fd rest ih =>
    rw [parseSectionFields] at hgen
    cases h1 : parseField fd (.generator d) acc e [sname, fd.name] reg with
    | error err =>
      rw [h1] at hgen
      exact absurd hgen (by simp [except_bind_error])
    | ok pr =>
      obtain ⟨fs, r1⟩ := pr
      rw [h1, except_bind_ok] at hgen
      dsimp only at hgen
      obtain ⟨hr1, pf, hfs, hlen, hbytes, hreplay⟩ :=
        flat_field_roundtrip fd (hflat fd (by simp)) d sname (hov fd (by simp))
          acc e reg fs r1 h1
      subst hfs hr1
      obtain ⟨hrr, new', hout, hbytes', hreplay'⟩ :=
        ih (fun f hf => hflat f (by simp [hf])) (fun f hf => hov f (by simp [hf]))
          (acc ++ [pf]) out rr hgen
      have hsplit : bytesOfFields (pf :: new') = pf.bytes ++ bytesOfFields new' := by
        simp [bytesOfFields]
      refine ⟨hrr, pf :: new', by simpa using hout, ?_, ?_⟩
      · intro x hx
        rw [hsplit] at hx
        rcases List.mem_append.mp hx with hx1 | hx2
        · exact hbytes x hx1
        · exact hbytes' x hx2
      · intro buffer off acc' hbound hslice
        rw [hsplit] at hbound hslice
        simp only [List.length_append] at hbound hslice
        rw [List.take_add] at hslice
        have hfirst : (buffer.drop off).take pf.bytes.length = pf.bytes :=
          List.append_inj_left hslice
            (by simp only [List.length_take, List.length_drop]; omega)
        have hrest : ((buffer.drop off).drop pf.bytes.length).take
            (bytesOfFields new').length = bytesOfFields new' :=
          List.append_inj_right hslice
            (by simp only [List.length_take, List.length_drop]; omega)
        rw [List.drop_drop, hlen] at hrest
        rw [parseSectionFields]
        rw [hreplay buffer off acc' (by omega) (hlen ▸ hfirst), except_bind_ok]
        dsimp only
        rw [hreplay' buffer (off + fd.byteSize) (acc' ++ [pf])
          (by omega) hrest]
        have harith : off + fd.byteSize + (bytesOfFields new').length
            = off + (bytesOfFields (pf :: new')).length := by
          rw [hsplit, List.length_append, hlen]
          omega
        rw [harith]
        simp

/-- The structure-level round trip over the ordered sections. -/
theorem flat_sections_roundtrip (secs : List SectionDefinition)
    (d : Option CustomBytes)
    (hflat : ∀ s ∈ secs, ∀ fd ∈ s.fields, fd.flatPlain = true)
    (hov : ∀ s ∈ secs, ∀ fd ∈ s.fields, fieldOversizeFree d s.name fd = true)
    (e : Endianness) (reg : String → Option (List Nat → ParsedValue))
    (pss : List ParsedSection) (rr : Reader)
    (hgen : parseSections e reg secs (.generator d) = .ok (pss, rr)) :
    rr = .generator d ∧ (∀ x ∈ bytesOfSections pss, x < 256) ∧
    ∀ (buffer : List Nat) (off : Nat),
      off + (bytesOfSections pss).length ≤ buffer.length →
      (buffer.drop off).take (bytesOfSections pss).length = bytesOfSections pss →
      parseSections e reg secs (.default buffer off)
        = .ok (pss, .default buffer (off + (bytesOfSections pss).length)) := by
  induction secs generalizing pss rr with
  | nil =>
    rw [parseSections] at hgen
    cases hgen
    refine ⟨rfl, by simp [bytesOfSections], ?_⟩
    intro buffer off _ _
    rw [parseSections]
    simp [bytesOfSections, except_pure]
  | cons s rest ih =>
    rw [parseSections] at hgen
    cases h1 : parseSectionFields e reg s.name s.fields (.generator d) [] with
    | error err =>
      rw [show parseSection s (.generator d) e reg = .error err from by
        rw [parseSection, h1]; rfl] at hgen
      exact absurd hgen (by simp [except_bind_error])
    | ok pr =>
      obtain ⟨fsOut, r1⟩ := pr
      have hsec : parseSection s (.generator d) e reg
          = .ok ({ name := s.name, fields := fsOut }, r1) := by
        rw [parseSection, h1]
        rfl
      rw [hsec, except_bind_ok] at hgen
      dsimp only at hgen
      obtain ⟨hr1, new, hout, hb, hre⟩ :=
        flat_fields_roundtrip s.fields d s.name (hflat s (by simp))
          (hov s (by simp)) e reg [] fsOut r1 h1
      subst hr1
      rw [show fsOut = new from by simpa using hout] at hgen
      cases h2 : parseSections e reg rest (.generator d) with
      | error err =>
        rw [h2] at hgen
        exact absurd hgen (by simp [except_bind_error])
      | ok pr2 =>
        obtain ⟨pss', rr'⟩ := pr2
        rw [h2, except_bind_ok] at hgen
        dsimp only at hgen
        rw [except_pure] at hgen
        simp only [Except.ok.injEq, Prod.mk.injEq] at hgen
        obtain ⟨hpss, hrr2⟩ := hgen
        subst hpss
        subst hrr2
        obtain ⟨hrr, hb', hre'⟩ :=
          ih (fun s' h => hflat s' (by simp [h])) (fun s' h => hov s' (by simp [h]))
            pss' rr' h2
        have hsplit : bytesOfSections ({ name := s.name, fields := new } :: pss')
            = bytesOfFields new ++ bytesOfSections pss' := by
          simp [bytesOfSections]
        refine ⟨hrr, ?_, ?_⟩
        · intro x hx
          rw [hsplit] at hx
          rcases List.mem_append.mp hx with hx1 | hx2
          · exact hb x hx1
          · exact hb' x hx2
        · intro buffer off hbound hslice
          rw [hsplit] at hbound hslice
          simp only [List.length_append] at hbound hslice
          rw [List.take_add] at hslice
          have hfirst : (buffer.drop off).take (bytesOfFields new).length
              = bytesOfFields new :=
            List.append_inj_left hslice
              (by simp only [List.length_take, List.length_drop]; omega)
          have hrest : ((buffer.drop off).drop (bytesOfFields new).length).take
              (bytesOfSections pss').length = bytesOfSections pss' :=
            List.append_inj_right hslice
              (by simp only [List.length_take, List.length_drop]; omega)
          rw [List.drop_drop] at hrest
          rw [parseSections]
          have hsecd : parseSection s (.default buffer off) e reg
              = .ok ({ name := s.name, fields := new },
                  .default buffer (off + (bytesOfFields new).length)) := by
            rw [parseSection]
            rw [hre buffer off [] (by omega) hfirst]
            rfl
          rw [hsecd, except_bind_ok]
          dsimp only
          rw [hre' buffer (off + (bytesOfFields new).length) (by omega) hrest]
          rw [except_bind_ok]
          dsimp only
          rw [except_pure]
          have harith : off + (bytesOfFields new).length + (bytesOfSections pss').length
              = off + (bytesOfFields new ++ bytesOfSections pss').length := by
            simp only [List.length_append]
            omega
          rw [harith, hsplit]

/-- For a plain nested field (no id, condition, repeat, assertion or decoder),
`parseField` is: peek the declared bytes, parse the children over the same
reader, build the single instance. -/
theorem nested_parseField_eq (id? : Option String) (nm : String) (bs : Nat)
    (subs : List FieldDefinition) (r : Reader) (ctx : List ParsedField)
    (e : Endianness) (path : List String)
    (reg : String → Option (List Nat → ParsedValue)) :
    parseField (.mk id? nm bs none none none (.nested subs none)) r ctx e path reg
      = match Reader.peekBytes r bs path with
        | .error err => .error err
        | .ok bytes =>
          match parseChildren subs r ctx e path reg with
          | .error err => .error err
          | .ok gr => .ok ([.withSub (idField id?) nm bytes none gr.1], gr.2) := by
  cases hpk : Reader.peekBytes r bs path with
  | error err =>
    simp [parseField, parseLoop, parseOne, resolveRepeatCount, repeatTruthy,
      FieldDefinition.if?, FieldDefinition.repeat?, FieldDefinition.assert?,
      FieldDefinition.byteSize, hpk, except_bind_ok, except_bind_error,
      except_pure]
  | ok bytes =>
    cases hch : parseChildren subs r ctx e path reg with
    | error err =>
      simp [parseField, parseLoop, parseOne, resolveRepeatCount, repeatTruthy,
        FieldDefinition.if?, FieldDefinition.repeat?, FieldDefinition.assert?,
        FieldDefinition.byteSize, hpk, hch, except_bind_ok, except_bind_error,
        except_pure]
    | ok gr =>
      obtain ⟨groups, r2⟩ := gr
      simp [parseField, parseLoop, parseOne, resolveRepeatCount, repeatTruthy,
        FieldDefinition.if?, FieldDefinition.repeat?, FieldDefinition.assert?,
        FieldDefinition.byteSize, hpk, hch, except_bind_ok, except_bind_error,
        except_pure]

/--
**C1, counterexample.**  The claim restricts only conditions and repeats,
but nested fields also break the round trip: `c1NestedDef` declares a parent
of 1 byte whose single child reads 2 bytes.  Generation succeeds (the
defaults reader serves every path), and the flattened buffer holds only the
parent's 1-byte capture — re-parsing it fails with OutOfRange, so
`parse(def, generateBytes(def, defaults))` differs from
`generate(def, defaults)`.
-/
theorem c1_roundtrip_counterexample :
    (Generator.generateBytes c1NestedDef none (Registry.get []) >>= fun bs =>
      Parser.parseStructure c1NestedDef bs [])
      = .error "Attempt to read beyond end of data"
  ∧ Generator.generateStructure c1NestedDef none (Registry.get [])
      = .ok [c1ParsedSec]
  ∧ (Except.error "Attempt to read beyond end of data"
        : Except String ParsedStructure)
      ≠ .ok [c1ParsedSec] := by
  have hchild_gen : parseField c1Child (.generator none) [] Endianness.little
      (["S", "parent"] ++ [c1Child.name]) (Registry.get [])
      = .ok ([.direct none "child" [0, 0] none], .generator none) := by
    rw [flat_parseField_eq c1Child rfl]
    rfl
  have hch_gen : parseChildren [c1Child] (.generator none) [] Endianness.little
      ["S", "parent"] (Registry.get [])
      = .ok ([[.direct none "child" [0, 0] none]], .generator none) := by
    rw [parseChildren.eq_def]
    dsimp only
    rw [hchild_gen]
    simp only [except_bind_ok]
    rw [parseChildren.eq_def]
    rfl
  have hparent_gen : parseField c1Parent (.generator none) [] Endianness.little
      ["S", "parent"] (Registry.get [])
      = .ok ([c1ParsedParent], .generator none) := by
    rw [show c1Parent
        = FieldDefinition.mk none "parent" 1 none none none (.nested [c1Child] none)
      from rfl]
    rw [nested_parseField_eq]
    rw [show Reader.peekBytes (.generator none) 1 ["S", "parent"] = Except.ok [0]
      from rfl]
    rw [hch_gen]
    rfl
  have hgenstruct : Generator.generateStructure c1NestedDef none (Registry.get [])
      = .ok [c1ParsedSec] := by
    simp only [Generator.generateStructure, Parser.parseStructureWithReader]
    rw [show c1NestedDef.endian?.getD Endianness.little = Endianness.little
      from rfl]
    rw [show c1NestedDef.sections = [c1Sec] from rfl]
    rw [parseSections]
    simp only [parseSection]
    rw [show c1Sec.fields = [c1Parent] from rfl, show c1Sec.name = "S" from rfl]
    rw [parseSectionFields]
    rw [show c1Parent.name = "parent" from rfl]
    rw [hparent_gen]
    rfl
  have hgenbytes : Generator.generateBytes c1NestedDef none (Registry.get [])
      = .ok [0] := by
    rw [Generator.generateBytes, hgenstruct]
    rfl
  have hchild_parse : parseField c1Child (.default [0] 0) [] Endianness.little
      (["S", "parent"] ++ [c1Child.name]) (Registry.get [])
      = .error "Attempt to read beyond end of data" := by
    rw [flat_parseField_eq c1Child rfl]
    rfl
  have hch_parse : parseChildren [c1Child] (.default [0] 0) [] Endianness.little
      ["S", "parent"] (Registry.get [])
      = .error "Attempt to read beyond end of data" := by
    rw [parseChildren.eq_def]
    dsimp only
    rw [hchild_parse]
    rfl
  have hparent_parse : parseField c1Parent (.default [0] 0) [] Endianness.little
      ["S", "parent"] (Registry.get [])
      = .error "Attempt to read beyond end of data" := by
    rw [show c1Parent
        = FieldDefinition.mk none "parent" 1 none none none (.nested [c1Child] none)
      from rfl]
    rw [nested_parseField_eq]
    rw [show Reader.peekBytes (.default [0] 0) 1 ["S", "parent"] = Except.ok [0]
      from rfl]
    rw [hch_parse]
  have hparse : Parser.parseStructure c1NestedDef [0] []
      = .error "Attempt to read beyond end of data" := by
    simp only [Parser.parseStructure, Parser.parseStructureWithReader]
    rw [show (([0] : List Nat).map (· % 256)) = [0] from rfl]
    rw [show c1NestedDef.endian?.getD Endianness.little = Endianness.little
      from rfl]
    rw [show c1NestedDef.sections = [c1Sec] from rfl]
    rw [parseSections]
    simp only [parseSection]
    rw [show c1Sec.fields = [c1Parent] from rfl, show c1Sec.name = "S" from rfl]
    rw [parseSectionFields]
    rw [show c1Parent.name = "parent" from rfl]
    rw [hparent_parse]
    rfl
  refine ⟨?_, hgenstruct, by simp⟩
  rw [hgenbytes, except_bind_ok]
  exact hparse

/--
**C1, amended.**  For every structure definition whose fields are all flat
(no nested subfields), condition-free and repeat-free, and every defaults
tree none of whose located entries exceeds its field's declared size,
parsing the generated bytes reproduces the generated tree:
`parse(def, generateBytes(def, defaults)) = generate(def, defaults)` —
including the error cases, which propagate identically on both sides.
-/
theorem c1_roundtrip_flat (d : StructureDefinition) (defaults : Option CustomBytes)
    (m : Registry) (hflat : d.flatPlain = true)
    (hov : oversizeFree d defaults = true) :
    (Generator.generateBytes d defaults (Registry.get m) >>= fun bs =>
      Parser.parseStructure d bs m)
    = Generator.generateStructure d defaults (Registry.get m) := by
  cases hgen : Generator.generateStructure d defaults (Registry.get m) with
  | error e0 =>
    rw [Generator.generateBytes, hgen]
    rfl
  | ok pss =>
    rw [Generator.generateBytes, hgen]
    simp only [Except.map]
    rw [except_bind_ok]
    rw [Generator.generateStructure, Parser.parseStructureWithReader] at hgen
    cases hraw : parseSections (d.endian?.getD .little) (Registry.get m)
        d.sections (.generator defaults) with
    | error err =>
      rw [hraw] at hgen
      exact absurd hgen (by simp [Except.map])
    | ok pr =>
      obtain ⟨pss0, rr⟩ := pr
      rw [hraw] at hgen
      simp only [Except.map, Except.ok.injEq] at hgen
      subst hgen
      have hflat' : ∀ s ∈ d.sections, ∀ fd ∈ s.fields, fd.flatPlain = true := by
        intro s hs fd hf
        rw [StructureDefinition.flatPlain] at hflat
        exact List.all_eq_true.mp (List.all_eq_true.mp hflat s hs) fd hf
      have hov' : ∀ s ∈ d.sections, ∀ fd ∈ s.fields,
          fieldOversizeFree defaults s.name fd = true := by
        intro s hs fd hf
        rw [oversizeFree] at hov
        exact List.all_eq_true.mp (List.all_eq_true.mp hov s hs) fd hf
      obtain ⟨hrr, hb, hre⟩ := flat_sections_roundtrip d.sections defaults
        hflat' hov' (d.endian?.getD .little) (Registry.get m) pss0 rr hraw
      rw [show Generator.convertStructureToBytes pss0
            = (bytesOfSections pss0).map (· % 256) from rfl]
      rw [map_mod256_id _ hb]
      rw [Parser.parseStructure]
      rw [map_mod256_id _ hb]
      rw [Parser.parseStructureWithReader]
      rw [hre (bytesOfSections pss0) 0 (by omega)
        (by rw [List.drop_zero, List.take_length])]
      rfl

/-- **C1, witness**: the flat schema `c1FlatDef` (a uint field plus a
bit-masked field) with an exact-size default entry round-trips. -/
theorem c1_roundtrip_flat_witness :
    (Generator.generateBytes c1FlatDef (some c1FlatDefaults) (Registry.get []) >>= fun bs =>
      Parser.parseStructure c1FlatDef bs [])
    = Generator.generateStructure c1FlatDef (some c1FlatDefaults) (Registry.get []) :=
  c1_roundtrip_flat c1FlatDef (some c1FlatDefaults) [] (by decide) (by decide)
